import Mathlib

/-!
# DMR common air interface decoder (`dmr_cai.cc`)

A shallow embedding of `dmr_cai::load_frame`, `dmr_cai::extract_cach_fragment` and
`dmr_cai::decode_shortLC`, followed by theorems about them.

Conventions of the embedding

* `d_shift_reg` and `d_chan` are declared in `dmr_cai.h`, which is not among the sources;
  they are taken to be 32-bit `int`s.  `d_shift_reg` is kept as its bit pattern, a natural
  number below `2 ^ 32`, and `<< 1` is followed by `% 2 ^ 32`; `d_chan` only ever holds 0,
  1 or an entry of `slot_ids`.
* C arrays that are written in place (`slc`) are maps from index to value.
* `d_cach_sig` is a `std::vector<bool>`: a `List Bool`.  An index read at or beyond its
  length has no defined result; functions that perform such reads return `Option`.
* Everything that `dmr_cai.cc` takes from headers that are not part of the sources
  (`dmr_const.h`, `bit_utils.h`, `hamming.h`, `crc16.h`, `dmr_slot.h`) is a field of `Ext`.
-/

namespace Dmr

/-- Constants, tables and collaborators that `dmr_cai.cc` uses and does not define.
`σ` is the state of one `dmr_slot`. -/
structure Ext (σ : Type) where
  /-- frame length in bits -/
  FRAME_SIZE : Nat
  /-- offset such that `d_frame + SYNC_EMB + 24` is the start of the sync field -/
  SYNC_EMB : Nat
  /-- offset of the CACH region in `d_frame` -/
  CACH : Nat
  /-- the catalog `DMR_SYNC_MAGICS[0 .. DMR_SYNC_MAGICS_COUNT - 1]`, in order -/
  DMR_SYNC_MAGICS : List Nat
  DMR_SYNC_THRESHOLD : Nat
  DMR_BS_VOICE_SYNC_MAGIC : Nat
  DMR_BS_DATA_SYNC_MAGIC : Nat
  DMR_T1_VOICE_SYNC_MAGIC : Nat
  DMR_T2_VOICE_SYNC_MAGIC : Nat
  /-- the channel lookup table, as index ↦ entry -/
  slot_ids : Nat → Nat
  /-- the table of tactical bit positions (one byte per entry) -/
  cach_tact_bits : List Nat
  /-- the table of payload bit positions (one byte per entry) -/
  cach_payload_bits : List Nat
  /-- the Hamming(7,4) decode table, as index ↦ entry -/
  hamming_7_4_decode : Nat → Nat
  /-- `dibits_to_bits(d_frame, fr_sym, n)`: the frame bits written for `n` symbols -/
  dibits_to_bits : List Nat → Nat → List Nat
  /-- `load_reg64(p, len)`, `p` given as the bytes from the pointer onward -/
  load_reg64 : List Nat → Nat → Nat
  /-- `load_i(p, len)`, `p` given as the bytes from the pointer onward -/
  load_i : List Nat → Nat → Nat
  /-- `CHamming::decode17123(d)`: from the 17-element window, the returned flag and the
  window as the call leaves it -/
  decode17123 : List Bool → Bool × List Bool
  /-- `crc8(bits, len)` -/
  crc8 : List Bool → Nat → Nat
  /-- `dmr_slot::load_slot(bits, sync)`: the returned flag and the slot afterwards -/
  load_slot : σ → List Nat → Nat → Bool × σ

/-- The data members of `dmr_cai` (without `d_debug`, which only gates logging). -/
structure dmr_cai (σ : Type) where
  d_shift_reg : Nat
  d_chan : Nat
  d_cach_sig : List Bool
  d_frame : List Nat
  d_slot : Nat → σ

/-- The constructor `dmr_cai::dmr_cai`: `s0`, `s1` are `dmr_slot(0, debug)` and
`dmr_slot(1, debug)`. -/
def dmr_cai_ctor {σ : Type} (c : Ext σ) (s0 s1 : σ) : dmr_cai σ :=
  { d_shift_reg := 0
    d_chan := 0
    d_cach_sig := []
    d_frame := List.replicate c.FRAME_SIZE 0
    d_slot := fun k => if k = 0 then s0 else s1 }

/-- The builtin `__builtin_popcountll` on a 64-bit word. -/
def popcountll (x : Nat) : Nat :=
  ((List.range 64).filter (fun i => x.testBit i)).length

/-- Number of bit positions, among the 64 of a word, at which `a` and `b` differ. -/
def hamming_distance (a b : Nat) : Nat :=
  (List.range 64).countP (fun i => a.testBit i != b.testBit i)

/-- The loop of `load_frame` over the catalog (lines 60-66): the entry at which the loop
breaks, `none` when it runs to the end. -/
def sync_search (thr sl_sync : Nat) : List Nat → Option Nat
  | [] => none
  | m :: ms =>
    if popcountll (sl_sync ^^^ m) ≤ thr then some m else sync_search thr sl_sync ms

/-- The indices of `d_cach_sig` read by lines 143-147 of `decode_shortLC`, in order. -/
def decode_shortLC_reads : List Nat :=
  (List.range 67).map (fun i => (i * 4) % 67) ++ [67]

/-- The deinterleave loop after `n` iterations (`slc[i] = d_cach_sig[(i * 4) % 67]`). -/
def deinterleave_loop (sig : List Bool) : Nat → Option (Nat → Bool)
  | 0 => some (fun _ => false)
  | n + 1 =>
    match deinterleave_loop sig n, sig.get? ((n * 4) % 67) with
    | some slc, some b => some (Function.update slc n b)
    | _, _ => none

/-- Lines 143-147: the loop for `i < 67`, then `slc[67] = d_cach_sig[67]`. -/
def deinterleave (sig : List Bool) : Option (Nat → Bool) :=
  match deinterleave_loop sig 67, sig.get? 67 with
  | some slc, some b => some (Function.update slc 67 b)
  | _, _ => none

/-- One call `CHamming::decode17123(slc + off)`: the flag, and `slc` with the window
`off .. off + 16` as the call leaves it. -/
def hamming_window {σ : Type} (c : Ext σ) (slc : Nat → Bool) (off : Nat) :
    Bool × (Nat → Bool) :=
  let r := c.decode17123 ((List.range 17).map (fun j => slc (off + j)))
  (r.1, fun k => if off ≤ k ∧ k < off + 17 then r.2.getD (k - off) (slc k) else slc k)

/-- The parity loop (lines 159-162): `true` when no iteration returns. -/
def parity_ok (slc : Nat → Bool) : Bool :=
  (List.range 17).all (fun i => slc (i + 51) == xor (xor (slc (i + 0)) (slc (i + 17))) (slc (i + 34)))

/-- The two copy loops of lines 165-170. -/
def strip_hamming (slc : Nat → Bool) : Nat → Bool :=
  let slc1 := (List.range' 17 12).foldl (fun s i => Function.update s (i - 5) (s i)) slc
  (List.range' 34 12).foldl (fun s i => Function.update s (i - 10) (s i)) slc1

/-- The array `slc[0 .. 67]` as passed through a pointer. -/
def slc_array (slc : Nat → Bool) : List Bool :=
  (List.range 68).map slc

/-- The method `dmr_cai::decode_shortLC` on the buffer `d_cach_sig`: its return value, or
`none` when a read of the buffer is out of range.  The block under `d_debug >= 10` only
prints. -/
def decode_shortLC {σ : Type} (c : Ext σ) (sig : List Bool) : Option Bool :=
  match deinterleave sig with
  | none => none
  | some slc0 =>
    let h0 := hamming_window c slc0 0
    let h1 := hamming_window c h0.2 17
    let h2 := hamming_window c h1.2 34
    let hmg_result := ((true && h0.1) && h1.1) && h2.1
    if !hmg_result then some false
    else if !parity_ok h2.2 then some false
    else if c.crc8 (slc_array (strip_hamming h2.2)) 36 != 0 then some false
    else some true

/-- What `extract_cach_fragment` leaves: the object, and the outcome of the call of
`decode_shortLC` when one was made. -/
structure CachResult (σ : Type) where
  st : dmr_cai σ
  slc : Option (Option Bool)

/-- The frame bits `d_frame[CACH + tbl[i]]` for the entries of a position table. -/
def gather {σ : Type} (c : Ext σ) (d_frame : List Nat) (tbl : List Nat) : List Nat :=
  tbl.map (fun p => d_frame.getD (c.CACH + p) 0)

/-- The bits pushed onto `d_cach_sig` by one of the loops over `cach_payload_bits`
(a byte converts to `bool` as "non-zero"). -/
def payload_bits {σ : Type} (c : Ext σ) (d_frame : List Nat) : List Bool :=
  (gather c d_frame c.cach_payload_bits).map (fun b => b != 0)

/-- The method `dmr_cai::extract_cach_fragment`. -/
def extract_cach_fragment {σ : Type} (c : Ext σ) (st : dmr_cai σ) : CachResult σ :=
  let tactbuf := gather c st.d_frame c.cach_tact_bits
  let tact := c.hamming_7_4_decode (c.load_i tactbuf 7)
  let tact_tc := (tact >>> 2) &&& 1
  let tact_lcss := tact &&& 3
  let d_shift_reg := (st.d_shift_reg <<< 1) % 2 ^ 32 + tact_tc
  let st1 := { st with d_shift_reg := d_shift_reg, d_chan := c.slot_ids (d_shift_reg &&& 7) }
  if tact_lcss = 0 then
    { st := st1, slc := none }
  else if tact_lcss = 1 then
    { st := { st1 with d_cach_sig := [] ++ payload_bits c st.d_frame }, slc := none }
  else if tact_lcss = 2 then
    let sig := st1.d_cach_sig ++ payload_bits c st.d_frame
    { st := { st1 with d_cach_sig := sig }, slc := some (decode_shortLC c sig) }
  else
    { st := { st1 with d_cach_sig := st1.d_cach_sig ++ payload_bits c st.d_frame }, slc := none }

/-- What one call of `load_frame` produces: the return value, the `unmute` output, the
object afterwards, the arguments of the `load_slot` call of line 94 (`slot_index`,
`slot_bits`, `slot_sync`) and the outcome of `decode_shortLC` when it was called. -/
structure LoadResult (σ : Type) where
  sync_rxd : Bool
  unmute : Bool
  st : dmr_cai σ
  slot_index : Nat
  slot_bits : List Nat
  slot_sync : Nat
  slc : Option (Option Bool)

/-- Lines 68-91 of `load_frame` on a matched sync: the `switch` on the matched constant. -/
def dispatch_sync {σ : Type} (c : Ext σ) (st : dmr_cai σ) (sl_sync : Nat) : CachResult σ :=
  if sl_sync = c.DMR_BS_VOICE_SYNC_MAGIC then extract_cach_fragment c st
  else if sl_sync = c.DMR_BS_DATA_SYNC_MAGIC then extract_cach_fragment c st
  else if sl_sync = c.DMR_T1_VOICE_SYNC_MAGIC then
    { st := { st with d_shift_reg := 0, d_chan := 0 }, slc := none }
  else if sl_sync = c.DMR_T2_VOICE_SYNC_MAGIC then
    { st := { st with d_shift_reg := 1, d_chan := 1 }, slc := none }
  else { st := st, slc := none }

/-- The `else` branch of lines 87-91. -/
def no_sync_update {σ : Type} (c : Ext σ) (st : dmr_cai σ) : dmr_cai σ :=
  let d_shift_reg := (st.d_shift_reg <<< 1) % 2 ^ 32 + (st.d_chan + 1) % 2
  { st with d_shift_reg := d_shift_reg, d_chan := c.slot_ids (d_shift_reg &&& 7) }

/-- The 48-bit sync field of a frame (line 59). -/
def sync_field {σ : Type} (c : Ext σ) (d_frame : List Nat) : Nat :=
  c.load_reg64 (d_frame.drop (c.SYNC_EMB + 24)) 48

/-- The method `dmr_cai::load_frame`.  The array `d_slot` is a map from index to slot; only
the indices 0 and 1 are inside the C++ array. -/
def load_frame {σ : Type} (c : Ext σ) (st : dmr_cai σ) (fr_sym : List Nat) : LoadResult σ :=
  let d_frame := c.dibits_to_bits fr_sym (c.FRAME_SIZE >>> 1)
  let st0 := { st with d_frame := d_frame }
  let found := sync_search c.DMR_SYNC_THRESHOLD (sync_field c d_frame) c.DMR_SYNC_MAGICS
  let sync_rxd := found.isSome
  let sl_sync := match found with
    | some m => m
    | none => 0
  let r : CachResult σ := match found with
    | some m => dispatch_sync c st0 m
    | none => { st := no_sync_update c st0, slc := none }
  let call := c.load_slot (r.st.d_slot r.st.d_chan) (d_frame.drop 24) sl_sync
  { sync_rxd := sync_rxd
    unmute := call.1
    st := { r.st with d_slot := Function.update r.st.d_slot r.st.d_chan call.2 }
    slot_index := r.st.d_chan
    slot_bits := d_frame.drop 24
    slot_sync := sl_sync
    slc := r.slc }

/-- The frame buffer `d_frame` as `load_frame` fills it from the symbols. -/
def frame_of {σ : Type} (c : Ext σ) (fr_sym : List Nat) : List Nat :=
  c.dibits_to_bits fr_sym (c.FRAME_SIZE >>> 1)

/-- The tactical field of a frame: the Hamming(7,4) table entry of the 7-bit value loaded
from the frame bits at the tactical positions. -/
def tact_field {σ : Type} (c : Ext σ) (d_frame : List Nat) : Nat :=
  c.hamming_7_4_decode
    (c.load_i (c.cach_tact_bits.map (fun p => d_frame.getD (c.CACH + p) 0)) 7)

/-- Bit 2 of the tactical field (TDMA channel). -/
def tact_tc {σ : Type} (c : Ext σ) (d_frame : List Nat) : Nat :=
  (tact_field c d_frame / 4) % 2

/-- Bits 1-0 of the tactical field (link control start/stop). -/
def tact_lcss {σ : Type} (c : Ext σ) (d_frame : List Nat) : Nat :=
  tact_field c d_frame % 4

/-- One frame carrying a CACH: `d_frame` holds the frame and `extract_cach_fragment` runs. -/
def cach_frame {σ : Type} (c : Ext σ) (st : dmr_cai σ) (d_frame : List Nat) : CachResult σ :=
  extract_cach_fragment c { st with d_frame := d_frame }

/-- The object after a sequence of frames carrying a CACH. -/
def cach_frames {σ : Type} (c : Ext σ) (st : dmr_cai σ) (frames : List (List Nat)) :
    dmr_cai σ :=
  frames.foldl (fun s f => (cach_frame c s f).st) st

/-- The working array as the deinterleave step is described: element `i < 67` is buffer
element `(4 * i) mod 67`, element 67 is buffer element 67. -/
def working (sig : List Bool) : Nat → Bool :=
  fun i => if i < 67 then sig.getD ((4 * i) % 67) false
    else if i = 67 then sig.getD 67 false else false

/-- The 17-bit block of the working array at offset `off`. -/
def block (sig : List Bool) (off : Nat) : List Bool :=
  (List.range 17).map (fun j => working sig (off + j))

/-- The flag reported by the Hamming(17,12,3) decode of the block at offset `off`. -/
def recoverable {σ : Type} (c : Ext σ) (sig : List Bool) (off : Nat) : Bool :=
  (c.decode17123 (block sig off)).1

/-- The working array after the three blocks at offsets 0, 17 and 34 have been replaced by
what their Hamming(17,12,3) decodes leave; elements from 51 on are untouched. -/
def corrected {σ : Type} (c : Ext σ) (sig : List Bool) : Nat → Bool :=
  fun k =>
    if k < 17 then (c.decode17123 (block sig 0)).2.getD k (working sig k)
    else if k < 34 then (c.decode17123 (block sig 17)).2.getD (k - 17) (working sig k)
    else if k < 51 then (c.decode17123 (block sig 34)).2.getD (k - 34) (working sig k)
    else working sig k

/-- The forward copy loop `for (i = a; i < a + n; i++) slc[i - d] = slc[i];`. -/
def copy_loop (a n d : Nat) (slc : Nat → Bool) : Nat → Bool :=
  (List.range' a n).foldl (fun s i => Function.update s (i - d) (s i)) slc

/-- One of the loops of lines 181-196 on a `uint8_t` that starts at 0:
`v <<= 1; v |= slc[i + off];` for `i < n`. -/
def load_u8 (slc : Nat → Bool) (off n : Nat) : Nat :=
  (List.range n).foldl (fun v i => ((v <<< 1) % 256) ||| (slc (i + off)).toNat) 0

/-- The values `slco`, `d0`, `d1`, `d2` of lines 179-196. -/
def shortLC_fields (slc : Nat → Bool) : Nat × Nat × Nat × Nat :=
  (load_u8 slc 0 4, load_u8 slc 4 8, load_u8 slc 12 8, load_u8 slc 20 8)

/-- The values `slco`, `d0`, `d1`, `d2` that `decode_shortLC` extracts from `slc` on the
path that returns true (the block that computes and prints them runs when
`d_debug >= 10`); `none` on every other path. -/
def decode_shortLC_fields {σ : Type} (c : Ext σ) (sig : List Bool) :
    Option (Nat × Nat × Nat × Nat) :=
  match deinterleave sig with
  | none => none
  | some slc0 =>
    let h0 := hamming_window c slc0 0
    let h1 := hamming_window c h0.2 17
    let h2 := hamming_window c h1.2 34
    if decode_shortLC c sig = some true then some (shortLC_fields (strip_hamming h2.2))
    else none

/-- The value of a list of bits read most significant bit first. -/
def bits_value (l : List Bool) : Nat :=
  l.foldl (fun v b => 2 * v + b.toNat) 0

/-- The working array of an encoded short LC: three 17-bit codewords followed by the row of
17 column parities. -/
def encoded_working (cw0 cw1 cw2 : List Bool) : Nat → Bool :=
  fun k =>
    if k < 17 then cw0.getD k false
    else if k < 34 then cw1.getD (k - 17) false
    else if k < 51 then cw2.getD (k - 34) false
    else if k < 68 then
      xor (xor (cw0.getD (k - 51) false) (cw1.getD (k - 51) false)) (cw2.getD (k - 51) false)
    else false

/-- A 68-bit buffer whose element `(4 * i) mod 67` is working element `i` for `i < 67`
(`17 * 4 = 68` is 1 modulo 67) and whose element 67 is working element 67. -/
def interleave (w : Nat → Bool) : List Bool :=
  (List.range 67).map (fun j => w ((17 * j) % 67)) ++ [w 67]

/-- A buffer with the bit at index `j` inverted. -/
def flip_bit (sig : List Bool) (j : Nat) : List Bool :=
  sig.set j (!sig.getD j false)

/-- The updates of the channel tracker: the two explicit slot syncs of `load_frame`, the
tactical channel bit of `extract_cach_fragment`, and the update on no match. -/
inductive TrackerUpdate where
  | t1_voice : TrackerUpdate
  | t2_voice : TrackerUpdate
  | tact (tc : Bool) : TrackerUpdate
  | no_match : TrackerUpdate
  deriving DecidableEq

/-- One update of `(d_shift_reg, d_chan)` as the code performs it (lines 79-80, 83-84,
89-90 and 110-111). -/
def tracker_step {σ : Type} (c : Ext σ) (s : Nat × Nat) : TrackerUpdate → Nat × Nat
  | TrackerUpdate.t1_voice => (0, 0)
  | TrackerUpdate.t2_voice => (1, 1)
  | TrackerUpdate.tact tc =>
    ((s.1 <<< 1) % 2 ^ 32 + tc.toNat, c.slot_ids (((s.1 <<< 1) % 2 ^ 32 + tc.toNat) &&& 7))
  | TrackerUpdate.no_match =>
    ((s.1 <<< 1) % 2 ^ 32 + (s.2 + 1) % 2,
      c.slot_ids (((s.1 <<< 1) % 2 ^ 32 + (s.2 + 1) % 2) &&& 7))

/-- The same update on a register that is cut to its low 3 bits after each update. -/
def tracker_step3 {σ : Type} (c : Ext σ) (s : Nat × Nat) (u : TrackerUpdate) : Nat × Nat :=
  ((tracker_step c s u).1 % 8, (tracker_step c s u).2)

/-- The tracker states after each of a sequence of updates, for a given step function. -/
def tracker_trace (step : Nat × Nat → TrackerUpdate → Nat × Nat) :
    Nat × Nat → List TrackerUpdate → List (Nat × Nat)
  | _, [] => []
  | s, u :: us => step s u :: tracker_trace step (step s u) us

/-- The object after a sequence of calls of `load_frame`. -/
def load_frames {σ : Type} (c : Ext σ) (st : dmr_cai σ) (frames : List (List Nat)) :
    dmr_cai σ :=
  frames.foldl (fun s f => (load_frame c s f).st) st

/-! ## A sample instantiation, for evaluating the model on concrete inputs -/

/-- Sample `dibits_to_bits`: each symbol gives its high bit, then its low bit. -/
def sample_dibits_to_bits (syms : List Nat) (n : Nat) : List Nat :=
  ((syms.take n).map (fun d => [(d >>> 1) &&& 1, d &&& 1])).flatten

/-- Sample `load_reg64` / `load_i`: `len` bits, most significant first. -/
def sample_load (bits : List Nat) (len : Nat) : Nat :=
  (bits.take len).foldl (fun acc b => (acc <<< 1) + (b &&& 1)) 0

/-- Sample values for `Ext`: the DMR sync patterns and bit tables, a frame of 288 bits,
and simple stand-ins for the FEC, CRC and slot collaborators (the Hamming(7,4) stand-in
keeps the four leading bits, the Hamming(17,12,3) stand-in accepts words of even weight
and corrects nothing, the CRC stand-in is the parity of the bits, the slot stand-in counts
its calls and unmutes on a non-zero sync). -/
def sample : Ext Nat :=
  { FRAME_SIZE := 288
    SYNC_EMB := 108
    CACH := 0
    DMR_SYNC_MAGICS :=
      [0x755fd7df75f7, 0xdff57d75df5d, 0x7f7d5dd57dfd, 0xd5d7f77fd757, 0x77d55f7dfd77,
       0x5d577f7757ff, 0xf7fdd5ddfd55, 0x7dffd5f55d5f, 0xd7557f5ff7f5]
    DMR_SYNC_THRESHOLD := 6
    DMR_BS_VOICE_SYNC_MAGIC := 0x755fd7df75f7
    DMR_BS_DATA_SYNC_MAGIC := 0xdff57d75df5d
    DMR_T1_VOICE_SYNC_MAGIC := 0x5d577f7757ff
    DMR_T2_VOICE_SYNC_MAGIC := 0x7dffd5f55d5f
    slot_ids := fun k => [0, 1, 0, 0, 1, 1, 0, 1].getD k 0
    cach_tact_bits := [0, 4, 8, 12, 14, 18, 22]
    cach_payload_bits := [1, 2, 3, 5, 6, 7, 9, 10, 11, 13, 15, 16, 17, 19, 20, 21, 23]
    hamming_7_4_decode := fun x => x >>> 3
    dibits_to_bits := sample_dibits_to_bits
    load_reg64 := sample_load
    load_i := sample_load
    decode17123 := fun w => (w.count true % 2 == 0, w)
    crc8 := fun bits len => (bits.take len).count true % 2
    load_slot := fun s _ sync => (sync != 0, s + 1) }

/-- The sample decoder as constructed. -/
def sample_fresh : dmr_cai Nat := dmr_cai_ctor sample 0 0

/-- A burst of 144 symbols whose sync field holds the 24 symbols `sync`. -/
def sample_burst (cach : List Nat) (sync : List Nat) : List Nat :=
  cach ++ List.replicate (66 - cach.length) 0 ++ sync ++ List.replicate 54 0

/-- The symbols of the pattern `0x5d577f7757ff` (mobile slot 1 voice). -/
def sample_t1_symbols : List Nat :=
  [1, 1, 3, 1, 1, 1, 1, 3, 1, 3, 3, 3, 1, 3, 1, 3, 1, 1, 1, 3, 3, 3, 3, 3]

/-- The symbols of the pattern `0x7dffd5f55d5f` (mobile slot 2 voice). -/
def sample_t2_symbols : List Nat :=
  [1, 3, 3, 1, 3, 3, 3, 3, 3, 1, 1, 1, 3, 3, 1, 1, 1, 1, 3, 1, 1, 1, 3, 3]

/-- The symbols of the pattern `0x755fd7df75f7` (base station voice). -/
def sample_bs_symbols : List Nat :=
  [1, 3, 1, 1, 1, 1, 3, 3, 3, 1, 1, 3, 3, 1, 3, 3, 1, 3, 1, 1, 3, 3, 1, 3]

/-- Sample CACH region with start/stop code 1 (Begin). -/
def sample_begin : List Nat := [0, 1, 0, 0, 0, 0, 0, 0, 0, 0, 0, 0, 1]

/-- Sample CACH region with start/stop code 3 (Continue). -/
def sample_continue : List Nat := [0, 0, 1, 0, 0, 0, 0, 0, 1, 0, 0, 0, 1]

/-- Sample CACH region with start/stop code 2 (End). -/
def sample_end : List Nat := [0, 0, 0, 1, 0, 0, 0, 0, 1]

/-- Columns of the parity-check matrix of a sample single-error-correcting (17,12) code:
12 data positions, then 5 check positions. -/
def sample_cols : List Nat := [3, 5, 6, 7, 9, 10, 11, 12, 13, 14, 15, 17, 16, 8, 4, 2, 1]

/-- Syndrome of a word for `sample_cols`. -/
def sample_syndrome (w : List Bool) : Nat :=
  (w.zip sample_cols).foldl (fun s x => if x.1 then s ^^^ x.2 else s) 0

/-- Sample Hamming(17,12,3) decode: accept on syndrome 0, invert the bit whose column is the
syndrome, report unrecoverable when no column is. -/
def sample_decode17123 (w : List Bool) : Bool × List Bool :=
  if sample_syndrome w = 0 then (true, w)
  else if sample_cols.indexOf (sample_syndrome w) < 17 then
    (true, flip_bit w (sample_cols.indexOf (sample_syndrome w)))
  else (false, w)

/-- The codeword of 12 data bits for `sample_cols`. -/
def sample_encode17 (d : List Bool) : List Bool :=
  d ++ (List.range 5).map (fun i => (sample_syndrome d).testBit (4 - i))

/-- The sample instantiation with the single-error-correcting sample decode. -/
def sample_fec : Ext Nat :=
  { sample with decode17123 := sample_decode17123 }

/-- A sample payload: opcode 5, octets 0x3c, 0x81, 0x00, and 8 further zero bits. -/
def sample_payload : List Bool :=
  [false, true, false, true,
   false, false, true, true, true, true, false, false,
   true, false, false, false, false, false, false, true,
   false, false, false, false, false, false, false, false,
   false, false, false, false, false, false, false, false]

/-- The codeword of the first 12 bits of the sample payload. -/
def sample_cw0 : List Bool := sample_encode17 (sample_payload.take 12)

/-- The codeword of bits 12-23 of the sample payload. -/
def sample_cw1 : List Bool := sample_encode17 ((sample_payload.drop 12).take 12)

/-- The codeword of bits 24-35 of the sample payload. -/
def sample_cw2 : List Bool := sample_encode17 ((sample_payload.drop 24).take 12)

/-- The 68-bit buffer that encodes the sample payload. -/
def sample_sig : List Bool :=
  interleave (encoded_working sample_cw0 sample_cw1 sample_cw2)

/-- The symbols of the pattern `0x7f7d5dd57dfd` (mobile station voice), a catalog entry
that the `switch` of `load_frame` has no case for. -/
def sample_ms_symbols : List Nat :=
  [1, 3, 3, 3, 1, 3, 3, 1, 1, 1, 3, 1, 3, 1, 1, 1, 1, 3, 3, 1, 3, 3, 3, 1]

/-! ## Lemmas on the sync matcher -/

theorem popcountll_xor (a b : Nat) : popcountll (a ^^^ b) = hamming_distance a b := by
  unfold popcountll hamming_distance
  rw [List.countP_eq_length_filter]
  congr 1
  apply List.filter_congr
  intro i _
  rw [Nat.testBit_xor]

theorem sync_search_none (thr f : Nat) (l : List Nat) :
    sync_search thr f l = none ↔ ∀ m ∈ l, thr < hamming_distance f m := by
  induction l with
  | nil => simp [sync_search]
  | cons x xs ih =>
    by_cases h : popcountll (f ^^^ x) ≤ thr
    · have h2 : ¬ thr < hamming_distance f x := by rw [← popcountll_xor]; omega
      simp [sync_search, h, h2]
    · have h2 : thr < hamming_distance f x := by rw [← popcountll_xor]; omega
      simp [sync_search, h, h2, ih]

theorem sync_search_some (thr f : Nat) (l : List Nat) (m : Nat) :
    sync_search thr f l = some m ↔
      ∃ pre post, l = pre ++ m :: post ∧ (∀ x ∈ pre, thr < hamming_distance f x) ∧
        hamming_distance f m ≤ thr := by
  induction l with
  | nil => simp [sync_search]
  | cons x xs ih =>
    by_cases h : popcountll (f ^^^ x) ≤ thr
    · have h2 : hamming_distance f x ≤ thr := by rw [← popcountll_xor]; exact h
      simp only [sync_search, h, if_true, Option.some.injEq]
      constructor
      · rintro rfl
        exact ⟨[], xs, rfl, by simp, h2⟩
      · rintro ⟨pre, post, hl, hpre, _⟩
        cases pre with
        | nil => simp at hl; exact hl.1
        | cons p ps =>
          simp at hl
          have := hpre p (by simp)
          rw [← hl.1] at this
          omega
    · have h2 : thr < hamming_distance f x := by rw [← popcountll_xor]; omega
      simp only [sync_search, h, if_false, ih]
      constructor
      · rintro ⟨pre, post, hl, hpre, hm⟩
        refine ⟨x :: pre, post, by simp [hl], ?_, hm⟩
        intro y hy
        rcases List.mem_cons.1 hy with rfl | hy
        · exact h2
        · exact hpre y hy
      · rintro ⟨pre, post, hl, hpre, hm⟩
        cases pre with
        | nil =>
          simp at hl
          rw [← hl.1] at hm
          omega
        | cons p ps =>
          simp at hl
          exact ⟨ps, post, hl.2, fun y hy => hpre y (by simp [hy]), hm⟩

theorem shl_add_eq_or (r b : Nat) (hb : b < 2) :
    (r <<< 1) % 2 ^ 32 + b = ((r <<< 1) % 2 ^ 32) ||| b := by
  have h : (r <<< 1) % 2 ^ 32 = 2 ^ 1 * (r % 2 ^ 31) := by
    rw [Nat.shiftLeft_eq]; omega
  rw [h]
  exact Nat.mul_add_lt_is_or (by omega) _

theorem load_frame_some {σ : Type} (c : Ext σ) (st : dmr_cai σ) (fr_sym : List Nat) (m : Nat)
    (h : sync_search c.DMR_SYNC_THRESHOLD (sync_field c (frame_of c fr_sym))
      c.DMR_SYNC_MAGICS = some m) :
    (load_frame c st fr_sym).sync_rxd = true ∧
    (load_frame c st fr_sym).slot_sync = m ∧
    (load_frame c st fr_sym).slot_bits = (frame_of c fr_sym).drop 24 ∧
    (load_frame c st fr_sym).slot_index =
      (dispatch_sync c { st with d_frame := frame_of c fr_sym } m).st.d_chan ∧
    (load_frame c st fr_sym).slc =
      (dispatch_sync c { st with d_frame := frame_of c fr_sym } m).slc ∧
    (load_frame c st fr_sym).st =
      { (dispatch_sync c { st with d_frame := frame_of c fr_sym } m).st with
        d_slot := Function.update
          (dispatch_sync c { st with d_frame := frame_of c fr_sym } m).st.d_slot
          (dispatch_sync c { st with d_frame := frame_of c fr_sym } m).st.d_chan
          (c.load_slot
            ((dispatch_sync c { st with d_frame := frame_of c fr_sym } m).st.d_slot
              (dispatch_sync c { st with d_frame := frame_of c fr_sym } m).st.d_chan)
            ((frame_of c fr_sym).drop 24) m).2 } ∧
    (load_frame c st fr_sym).unmute =
      (c.load_slot
        ((dispatch_sync c { st with d_frame := frame_of c fr_sym } m).st.d_slot
          (dispatch_sync c { st with d_frame := frame_of c fr_sym } m).st.d_chan)
        ((frame_of c fr_sym).drop 24) m).1 := by
  unfold frame_of at h
  simp only [load_frame, frame_of, h, Option.isSome_some]
  exact ⟨trivial, trivial, trivial, trivial, trivial, trivial, trivial⟩

theorem load_frame_none {σ : Type} (c : Ext σ) (st : dmr_cai σ) (fr_sym : List Nat)
    (h : sync_search c.DMR_SYNC_THRESHOLD (sync_field c (frame_of c fr_sym))
      c.DMR_SYNC_MAGICS = none) :
    (load_frame c st fr_sym).sync_rxd = false ∧
    (load_frame c st fr_sym).slot_sync = 0 ∧
    (load_frame c st fr_sym).slot_bits = (frame_of c fr_sym).drop 24 ∧
    (load_frame c st fr_sym).slot_index =
      (no_sync_update c { st with d_frame := frame_of c fr_sym }).d_chan ∧
    (load_frame c st fr_sym).slc = none ∧
    (load_frame c st fr_sym).st =
      { no_sync_update c { st with d_frame := frame_of c fr_sym } with
        d_slot := Function.update
          (no_sync_update c { st with d_frame := frame_of c fr_sym }).d_slot
          (no_sync_update c { st with d_frame := frame_of c fr_sym }).d_chan
          (c.load_slot
            ((no_sync_update c { st with d_frame := frame_of c fr_sym }).d_slot
              (no_sync_update c { st with d_frame := frame_of c fr_sym }).d_chan)
            ((frame_of c fr_sym).drop 24) 0).2 } ∧
    (load_frame c st fr_sym).unmute =
      (c.load_slot
        ((no_sync_update c { st with d_frame := frame_of c fr_sym }).d_slot
          (no_sync_update c { st with d_frame := frame_of c fr_sym }).d_chan)
        ((frame_of c fr_sym).drop 24) 0).1 := by
  unfold frame_of at h
  simp only [load_frame, frame_of, h, Option.isSome_none]
  exact ⟨trivial, trivial, trivial, trivial, trivial, trivial, trivial⟩

/-! ## The sync matcher and the channel tracker in `load_frame` -/

/-- C1: `load_frame` returns true exactly when some entry of the sync catalog is at Hamming
distance at most `DMR_SYNC_THRESHOLD` from the sync field of the frame; in that case the
catalog splits as `pre ++ m :: post` where no entry of `pre` is within the threshold and `m`
is, and `m` (the catalog constant itself) is the value the `switch` dispatches on and the
sync argument of the `load_slot` call, whatever `post` contains. -/
theorem load_frame_sync_first_match {σ : Type} (c : Ext σ) (st : dmr_cai σ)
    (fr_sym : List Nat) :
    ((load_frame c st fr_sym).sync_rxd = true ↔
      ∃ m ∈ c.DMR_SYNC_MAGICS,
        hamming_distance (sync_field c (frame_of c fr_sym)) m ≤ c.DMR_SYNC_THRESHOLD) ∧
    ((load_frame c st fr_sym).sync_rxd = true →
      ∃ pre m post, c.DMR_SYNC_MAGICS = pre ++ m :: post ∧
        (∀ x ∈ pre,
          c.DMR_SYNC_THRESHOLD < hamming_distance (sync_field c (frame_of c fr_sym)) x) ∧
        hamming_distance (sync_field c (frame_of c fr_sym)) m ≤ c.DMR_SYNC_THRESHOLD ∧
        (load_frame c st fr_sym).slot_sync = m ∧
        (load_frame c st fr_sym).st.d_shift_reg =
          (dispatch_sync c { st with d_frame := frame_of c fr_sym } m).st.d_shift_reg ∧
        (load_frame c st fr_sym).st.d_chan =
          (dispatch_sync c { st with d_frame := frame_of c fr_sym } m).st.d_chan ∧
        (load_frame c st fr_sym).st.d_cach_sig =
          (dispatch_sync c { st with d_frame := frame_of c fr_sym } m).st.d_cach_sig ∧
        (load_frame c st fr_sym).unmute =
          (c.load_slot
            ((dispatch_sync c { st with d_frame := frame_of c fr_sym } m).st.d_slot
              (dispatch_sync c { st with d_frame := frame_of c fr_sym } m).st.d_chan)
            ((frame_of c fr_sym).drop 24) m).1) := by
  cases h : sync_search c.DMR_SYNC_THRESHOLD (sync_field c (frame_of c fr_sym))
      c.DMR_SYNC_MAGICS with
  | none =>
    have hn := load_frame_none c st fr_sym h
    have hall := (sync_search_none _ _ _).1 h
    refine ⟨⟨fun ht => ?_, fun ⟨m, hm, hd⟩ => ?_⟩, fun ht => ?_⟩
    · rw [hn.1] at ht; cases ht
    · have := hall m hm; omega
    · rw [hn.1] at ht; cases ht
  | some m =>
    have hs := load_frame_some c st fr_sym m h
    obtain ⟨pre, post, hl, hpre, hm⟩ := (sync_search_some _ _ _ _).1 h
    refine ⟨⟨fun _ => ⟨m, by rw [hl]; simp, hm⟩, fun _ => hs.1⟩, fun _ => ?_⟩
    refine ⟨pre, m, post, hl, hpre, hm, hs.2.1, ?_, ?_, ?_, hs.2.2.2.2.2.2⟩
    · rw [hs.2.2.2.2.2.1]
    · rw [hs.2.2.2.2.2.1]
    · rw [hs.2.2.2.2.2.1]

/-- C2: when the sync field of the frame is at Hamming distance above `DMR_SYNC_THRESHOLD`
from every catalog entry, `load_frame` returns false, passes the sync value 0 to the slot
decoder, and leaves `register' = (register << 1) | ((channel + 1) mod 2)` (the shift being
that of a 32-bit word) and `channel' = slot_ids[register' & 7]`, with `register` and
`channel` the values before the call. -/
theorem load_frame_no_match {σ : Type} (c : Ext σ) (st : dmr_cai σ) (fr_sym : List Nat)
    (h : ∀ m ∈ c.DMR_SYNC_MAGICS,
      c.DMR_SYNC_THRESHOLD < hamming_distance (sync_field c (frame_of c fr_sym)) m) :
    (load_frame c st fr_sym).sync_rxd = false ∧
    (load_frame c st fr_sym).slot_sync = 0 ∧
    (load_frame c st fr_sym).st.d_shift_reg =
      ((st.d_shift_reg <<< 1) % 2 ^ 32) ||| ((st.d_chan + 1) % 2) ∧
    (load_frame c st fr_sym).st.d_chan =
      c.slot_ids ((load_frame c st fr_sym).st.d_shift_reg &&& 7) ∧
    (load_frame c st fr_sym).st.d_cach_sig = st.d_cach_sig := by
  have hn := load_frame_none c st fr_sym ((sync_search_none _ _ _).2 h)
  have hreg : (load_frame c st fr_sym).st.d_shift_reg =
      ((st.d_shift_reg <<< 1) % 2 ^ 32) ||| ((st.d_chan + 1) % 2) := by
    rw [hn.2.2.2.2.2.1, ← shl_add_eq_or _ _ (Nat.mod_lt _ (by decide))]
    rfl
  refine ⟨hn.1, hn.2.1, hreg, ?_, ?_⟩
  · rw [hreg, hn.2.2.2.2.2.1, ← shl_add_eq_or _ _ (Nat.mod_lt _ (by decide))]
    rfl
  · rw [hn.2.2.2.2.2.1]
    rfl

/-- A burst of zero symbols is matched by no sync pattern of the sample catalog; the tracker
of the fresh sample decoder then moves to register 1, channel 1. -/
theorem load_frame_no_match_witness :
    (∀ m ∈ sample.DMR_SYNC_MAGICS,
      sample.DMR_SYNC_THRESHOLD <
        hamming_distance (sync_field sample (frame_of sample (List.replicate 144 0))) m) ∧
    (load_frame sample sample_fresh (List.replicate 144 0)).sync_rxd = false ∧
    (load_frame sample sample_fresh (List.replicate 144 0)).st.d_shift_reg = 1 ∧
    (load_frame sample sample_fresh (List.replicate 144 0)).st.d_chan = 1 :=
  have h := load_frame_no_match sample sample_fresh (List.replicate 144 0) (by decide)
  ⟨by decide, h.1, h.2.2.1.trans (by decide), h.2.2.2.1.trans (by decide)⟩

/-- C3: with the four `case` labels of the `switch` distinct (as C++ requires), a frame
whose matched sync is the mobile-slot-1 voice constant leaves register 0 and channel 0 and
is handed to slot decoder 0; one whose matched sync is the mobile-slot-2 voice constant
leaves register 1 and channel 1 and is handed to slot decoder 1; the values of register and
channel before the call play no part. -/
theorem load_frame_slot_voice_sync {σ : Type} (c : Ext σ) (st : dmr_cai σ)
    (fr_sym : List Nat)
    (hrx : (load_frame c st fr_sym).sync_rxd = true)
    (h1v : c.DMR_T1_VOICE_SYNC_MAGIC ≠ c.DMR_BS_VOICE_SYNC_MAGIC)
    (h1d : c.DMR_T1_VOICE_SYNC_MAGIC ≠ c.DMR_BS_DATA_SYNC_MAGIC)
    (h2v : c.DMR_T2_VOICE_SYNC_MAGIC ≠ c.DMR_BS_VOICE_SYNC_MAGIC)
    (h2d : c.DMR_T2_VOICE_SYNC_MAGIC ≠ c.DMR_BS_DATA_SYNC_MAGIC)
    (h21 : c.DMR_T2_VOICE_SYNC_MAGIC ≠ c.DMR_T1_VOICE_SYNC_MAGIC) :
    ((load_frame c st fr_sym).slot_sync = c.DMR_T1_VOICE_SYNC_MAGIC →
      (load_frame c st fr_sym).st.d_shift_reg = 0 ∧
      (load_frame c st fr_sym).st.d_chan = 0 ∧
      (load_frame c st fr_sym).slot_index = 0 ∧
      (load_frame c st fr_sym).unmute =
        (c.load_slot (st.d_slot 0) ((frame_of c fr_sym).drop 24)
          c.DMR_T1_VOICE_SYNC_MAGIC).1) ∧
    ((load_frame c st fr_sym).slot_sync = c.DMR_T2_VOICE_SYNC_MAGIC →
      (load_frame c st fr_sym).st.d_shift_reg = 1 ∧
      (load_frame c st fr_sym).st.d_chan = 1 ∧
      (load_frame c st fr_sym).slot_index = 1 ∧
      (load_frame c st fr_sym).unmute =
        (c.load_slot (st.d_slot 1) ((frame_of c fr_sym).drop 24)
          c.DMR_T2_VOICE_SYNC_MAGIC).1) := by
  cases h : sync_search c.DMR_SYNC_THRESHOLD (sync_field c (frame_of c fr_sym))
      c.DMR_SYNC_MAGICS with
  | none =>
    rw [(load_frame_none c st fr_sym h).1] at hrx
    cases hrx
  | some m =>
    obtain ⟨_, hsync, _, hidx, _, hst, hun⟩ := load_frame_some c st fr_sym m h
    constructor
    · intro hm
      rw [hsync] at hm
      subst hm
      have hd : dispatch_sync c { st with d_frame := frame_of c fr_sym }
          c.DMR_T1_VOICE_SYNC_MAGIC =
          { st := { st with d_frame := frame_of c fr_sym, d_shift_reg := 0, d_chan := 0 },
            slc := none } := by
        simp [dispatch_sync, h1v, h1d]
      rw [hd] at hst hidx hun
      refine ⟨by rw [hst], by rw [hst], hidx, hun⟩
    · intro hm
      rw [hsync] at hm
      subst hm
      have hd : dispatch_sync c { st with d_frame := frame_of c fr_sym }
          c.DMR_T2_VOICE_SYNC_MAGIC =
          { st := { st with d_frame := frame_of c fr_sym, d_shift_reg := 1, d_chan := 1 },
            slc := none } := by
        simp [dispatch_sync, h2v, h2d, h21]
      rw [hd] at hst hidx hun
      refine ⟨by rw [hst], by rw [hst], hidx, hun⟩

/-- On a sample decoder holding register 5 and channel 1, a slot-1 voice burst gives
register 0 and channel 0; on the fresh sample decoder a slot-2 voice burst gives register 1
and channel 1 and is decoded by slot 1. -/
theorem load_frame_slot_voice_sync_witness :
    ((load_frame sample { sample_fresh with d_shift_reg := 5, d_chan := 1 }
        (sample_burst [] sample_t1_symbols)).st.d_shift_reg = 0 ∧
      (load_frame sample { sample_fresh with d_shift_reg := 5, d_chan := 1 }
        (sample_burst [] sample_t1_symbols)).st.d_chan = 0) ∧
    ((load_frame sample sample_fresh (sample_burst [] sample_t2_symbols)).st.d_shift_reg = 1 ∧
      (load_frame sample sample_fresh (sample_burst [] sample_t2_symbols)).st.d_chan = 1 ∧
      (load_frame sample sample_fresh (sample_burst [] sample_t2_symbols)).slot_index = 1) :=
  have a := (load_frame_slot_voice_sync sample
    { sample_fresh with d_shift_reg := 5, d_chan := 1 } (sample_burst [] sample_t1_symbols)
    (by decide) (by decide) (by decide) (by decide) (by decide) (by decide)).1 (by decide)
  have b := (load_frame_slot_voice_sync sample sample_fresh (sample_burst [] sample_t2_symbols)
    (by decide) (by decide) (by decide) (by decide) (by decide) (by decide)).2 (by decide)
  ⟨⟨a.1, a.2.1⟩, b.1, b.2.1, b.2.2.1⟩

/-! ## The CACH fragment extractor -/

theorem tact_bits_eq (t : Nat) : (t >>> 2) &&& 1 = (t / 4) % 2 ∧ t &&& 3 = t % 4 := by
  constructor
  · rw [Nat.and_one_is_mod, Nat.shiftRight_eq_div_pow]
  · exact Nat.and_pow_two_sub_one_eq_mod t 2

theorem extract_cach_fragment_eq {σ : Type} (c : Ext σ) (st : dmr_cai σ) :
    extract_cach_fragment c st =
      if tact_lcss c st.d_frame = 0 then
        { st := { st with
            d_shift_reg := (st.d_shift_reg <<< 1) % 2 ^ 32 + tact_tc c st.d_frame
            d_chan := c.slot_ids
              (((st.d_shift_reg <<< 1) % 2 ^ 32 + tact_tc c st.d_frame) &&& 7) }
          slc := none }
      else if tact_lcss c st.d_frame = 1 then
        { st := { st with
            d_shift_reg := (st.d_shift_reg <<< 1) % 2 ^ 32 + tact_tc c st.d_frame
            d_chan := c.slot_ids
              (((st.d_shift_reg <<< 1) % 2 ^ 32 + tact_tc c st.d_frame) &&& 7)
            d_cach_sig := payload_bits c st.d_frame }
          slc := none }
      else if tact_lcss c st.d_frame = 2 then
        { st := { st with
            d_shift_reg := (st.d_shift_reg <<< 1) % 2 ^ 32 + tact_tc c st.d_frame
            d_chan := c.slot_ids
              (((st.d_shift_reg <<< 1) % 2 ^ 32 + tact_tc c st.d_frame) &&& 7)
            d_cach_sig := st.d_cach_sig ++ payload_bits c st.d_frame }
          slc := some (decode_shortLC c (st.d_cach_sig ++ payload_bits c st.d_frame)) }
      else
        { st := { st with
            d_shift_reg := (st.d_shift_reg <<< 1) % 2 ^ 32 + tact_tc c st.d_frame
            d_chan := c.slot_ids
              (((st.d_shift_reg <<< 1) % 2 ^ 32 + tact_tc c st.d_frame) &&& 7)
            d_cach_sig := st.d_cach_sig ++ payload_bits c st.d_frame }
          slc := none } := by
  unfold extract_cach_fragment tact_lcss tact_tc tact_field gather
  simp only [(tact_bits_eq _).1, (tact_bits_eq _).2, List.nil_append]

/-- C4: `extract_cach_fragment` loads the 7 frame bits at the tactical positions, takes the
Hamming(7,4) table entry `tact`, and with `tc` = bit 2 of `tact` leaves
`register' = (register << 1) | tc` (shift of a 32-bit word) and
`channel' = slot_ids[register' & 7]`; the addition the code performs equals that bitwise OR
for every register value. -/
theorem extract_cach_fragment_tracker {σ : Type} (c : Ext σ) (st : dmr_cai σ) :
    (extract_cach_fragment c st).st.d_shift_reg =
      ((st.d_shift_reg <<< 1) % 2 ^ 32) |||
        (if (tact_field c st.d_frame).testBit 2 then 1 else 0) ∧
    (extract_cach_fragment c st).st.d_chan =
      c.slot_ids ((extract_cach_fragment c st).st.d_shift_reg &&& 7) ∧
    (∀ r : Nat, (r <<< 1) % 2 ^ 32 + tact_tc c st.d_frame =
      ((r <<< 1) % 2 ^ 32) ||| tact_tc c st.d_frame) ∧
    tact_tc c st.d_frame = (if (tact_field c st.d_frame).testBit 2 then 1 else 0) := by
  have htc : tact_tc c st.d_frame = (if (tact_field c st.d_frame).testBit 2 then 1 else 0) := by
    unfold tact_tc
    rw [Nat.testBit_to_div_mod]
    simp only [decide_eq_true_eq]
    have h4 : 2 ^ 2 = 4 := rfl
    rw [h4]
    split_ifs with h <;> omega
  have hlt : tact_tc c st.d_frame < 2 := Nat.mod_lt _ (by decide)
  have hreg : (extract_cach_fragment c st).st.d_shift_reg =
      (st.d_shift_reg <<< 1) % 2 ^ 32 + tact_tc c st.d_frame := by
    rw [extract_cach_fragment_eq]
    split_ifs <;> rfl
  have hch : (extract_cach_fragment c st).st.d_chan =
      c.slot_ids (((st.d_shift_reg <<< 1) % 2 ^ 32 + tact_tc c st.d_frame) &&& 7) := by
    rw [extract_cach_fragment_eq]
    split_ifs <;> rfl
  refine ⟨?_, ?_, fun r => shl_add_eq_or r _ hlt, htc⟩
  · rw [hreg, shl_add_eq_or _ _ hlt, htc]
  · rw [hch, hreg]

/-- C5: with `B` the CACH buffer before the call and `P` the frame bits at the payload
positions in table order, `extract_cach_fragment` leaves the buffer equal to `B` for
start/stop code 0, to `P` for code 1, to `B ++ P` for code 3, and to `B ++ P` for code 2, in
which case `decode_shortLC` runs on `B ++ P`; in the other cases it is not called. -/
theorem extract_cach_fragment_buffer {σ : Type} (c : Ext σ) (st : dmr_cai σ) :
    (tact_lcss c st.d_frame = 0 →
      (extract_cach_fragment c st).st.d_cach_sig = st.d_cach_sig ∧
      (extract_cach_fragment c st).slc = none) ∧
    (tact_lcss c st.d_frame = 1 →
      (extract_cach_fragment c st).st.d_cach_sig =
        c.cach_payload_bits.map (fun p => st.d_frame.getD (c.CACH + p) 0 != 0) ∧
      (extract_cach_fragment c st).slc = none) ∧
    (tact_lcss c st.d_frame = 3 →
      (extract_cach_fragment c st).st.d_cach_sig =
        st.d_cach_sig ++ c.cach_payload_bits.map (fun p => st.d_frame.getD (c.CACH + p) 0 != 0) ∧
      (extract_cach_fragment c st).slc = none) ∧
    (tact_lcss c st.d_frame = 2 →
      (extract_cach_fragment c st).st.d_cach_sig =
        st.d_cach_sig ++ c.cach_payload_bits.map (fun p => st.d_frame.getD (c.CACH + p) 0 != 0) ∧
      (extract_cach_fragment c st).slc =
        some (decode_shortLC c (st.d_cach_sig ++
          c.cach_payload_bits.map (fun p => st.d_frame.getD (c.CACH + p) 0 != 0)))) ∧
    tact_lcss c st.d_frame < 4 := by
  have hP : payload_bits c st.d_frame =
      c.cach_payload_bits.map (fun p => st.d_frame.getD (c.CACH + p) 0 != 0) := by
    simp [payload_bits, gather, List.map_map, Function.comp_def]
  rw [← hP, extract_cach_fragment_eq]
  refine ⟨fun h => ?_, fun h => ?_, fun h => ?_, fun h => ?_, Nat.mod_lt _ (by decide)⟩ <;>
    simp [h]

theorem cach_frame_sig {σ : Type} (c : Ext σ) (st : dmr_cai σ) (f : List Nat) :
    (tact_lcss c f = 1 → (cach_frame c st f).st.d_cach_sig = payload_bits c f) ∧
    (tact_lcss c f = 3 →
      (cach_frame c st f).st.d_cach_sig = st.d_cach_sig ++ payload_bits c f) ∧
    (tact_lcss c f = 2 →
      (cach_frame c st f).st.d_cach_sig = st.d_cach_sig ++ payload_bits c f ∧
      (cach_frame c st f).slc = some (decode_shortLC c (st.d_cach_sig ++ payload_bits c f))) := by
  unfold cach_frame
  rw [extract_cach_fragment_eq]
  refine ⟨fun h => ?_, fun h => ?_, fun h => ?_⟩ <;> simp [h]

theorem cach_frames_continue {σ : Type} (c : Ext σ) (fs : List (List Nat))
    (hs : ∀ f ∈ fs, tact_lcss c f = 3) (st : dmr_cai σ) :
    (cach_frames c st fs).d_cach_sig = st.d_cach_sig ++ (fs.map (payload_bits c)).flatten := by
  induction fs generalizing st with
  | nil => simp [cach_frames]
  | cons f fs ih =>
    have hf := (cach_frame_sig c st f).2.1 (hs f (by simp))
    have := ih (fun g hg => hs g (by simp [hg])) (cach_frame c st f).st
    unfold cach_frames at this ⊢
    rw [List.foldl_cons, this, hf]
    simp

/-- C6: for every buffer content before the first frame and every sequence of frames
carrying a CACH whose start/stop codes are Begin (1), then Continue (3) for each frame of
`fs` (any number, also none), then End (2), the buffer at the End frame, on which
`decode_shortLC` is called, is the concatenation in frame order of the payload bits of the
frames, with nothing of the earlier buffer. -/
theorem cach_begin_continue_end {σ : Type} (c : Ext σ) (st : dmr_cai σ)
    (f0 : List Nat) (fs : List (List Nat)) (fe : List Nat)
    (h0 : tact_lcss c f0 = 1) (hs : ∀ f ∈ fs, tact_lcss c f = 3) (he : tact_lcss c fe = 2) :
    (cach_frame c (cach_frames c st (f0 :: fs)) fe).st.d_cach_sig =
      payload_bits c f0 ++ (fs.map (payload_bits c)).flatten ++ payload_bits c fe ∧
    (cach_frame c (cach_frames c st (f0 :: fs)) fe).slc =
      some (decode_shortLC c
        (payload_bits c f0 ++ (fs.map (payload_bits c)).flatten ++ payload_bits c fe)) := by
  have hb : (cach_frames c st (f0 :: fs)).d_cach_sig =
      payload_bits c f0 ++ (fs.map (payload_bits c)).flatten := by
    have h1 := cach_frames_continue c fs hs (cach_frame c st f0).st
    rw [(cach_frame_sig c st f0).1 h0] at h1
    exact h1
  have h2 := (cach_frame_sig c (cach_frames c st (f0 :: fs)) fe).2.2 he
  rw [hb] at h2
  exact h2

/-- A Begin, two Continue frames and an End on a sample decoder whose buffer held three
stale bits: the 68 bits decoded are those of the four frames. -/
theorem cach_begin_continue_end_witness :
    (tact_lcss sample sample_begin = 1 ∧
      (∀ f ∈ [sample_continue, sample_continue], tact_lcss sample f = 3) ∧
      tact_lcss sample sample_end = 2) ∧
    (cach_frame sample
      (cach_frames sample { sample_fresh with d_cach_sig := [true, true, true] }
        (sample_begin :: [sample_continue, sample_continue])) sample_end).st.d_cach_sig =
      payload_bits sample sample_begin ++
        ([sample_continue, sample_continue].map (payload_bits sample)).flatten ++
        payload_bits sample sample_end :=
  ⟨⟨by decide, by decide, by decide⟩,
    (cach_begin_continue_end sample { sample_fresh with d_cach_sig := [true, true, true] }
      sample_begin [sample_continue, sample_continue] sample_end
      (by decide) (by decide) (by decide)).1⟩

/-! ## The short link control decoder -/

theorem deinterleave_loop_eq (sig : List Bool) (h : 67 ≤ sig.length) (n : Nat) :
    deinterleave_loop sig n =
      some (fun j => if j < n then sig.getD ((4 * j) % 67) false else false) := by
  induction n with
  | zero => simp [deinterleave_loop]
  | succ n ih =>
    have hlt : (n * 4) % 67 < sig.length := by omega
    simp only [deinterleave_loop, ih, List.get?_eq_getElem?, List.getElem?_eq_getElem hlt]
    congr 1
    funext j
    by_cases hj : j = n
    · subst hj
      have : 4 * j % 67 = j * 4 % 67 := by rw [Nat.mul_comm]
      simp [List.getD_eq_getElem?_getD, this, List.getElem?_eq_getElem hlt]
    · have h1 : (j < n + 1) = (j < n) := by
        apply propext; omega
      simp [Function.update, hj, h1]

theorem deinterleave_eq (sig : List Bool) (h : 68 ≤ sig.length) :
    deinterleave sig = some (working sig) := by
  have h67 : 67 < sig.length := by omega
  unfold deinterleave
  rw [deinterleave_loop_eq sig (by omega) 67, List.get?_eq_getElem?,
    List.getElem?_eq_getElem h67]
  simp only [Option.some.injEq]
  funext j
  unfold working
  by_cases hj : j = 67
  · subst hj
    simp [List.getD_eq_getElem?_getD, List.getElem?_eq_getElem h67]
  · simp [Function.update, hj]

theorem deinterleave_short (sig : List Bool) (h : sig.length < 68) :
    deinterleave sig = none := by
  have h67 : sig.get? 67 = none := by
    rw [List.get?_eq_getElem?]
    exact List.getElem?_eq_none (by omega)
  unfold deinterleave
  rw [h67]
  cases deinterleave_loop sig 67 <;> rfl

theorem reads_in_range_iff (sig : List Bool) :
    (∀ i ∈ decode_shortLC_reads, i < sig.length) ↔ 68 ≤ sig.length := by
  constructor
  · intro h
    have := h 67 (by simp [decode_shortLC_reads])
    omega
  · intro h i hi
    simp only [decode_shortLC_reads, List.mem_append, List.mem_map, List.mem_range,
      List.mem_singleton] at hi
    rcases hi with ⟨j, _, rfl⟩ | rfl
    · have : j * 4 % 67 < 67 := Nat.mod_lt _ (by decide)
      omega
    · omega

theorem hamming_window_fst {σ : Type} (c : Ext σ) (slc : Nat → Bool) (sig : List Bool)
    (off : Nat) (h : ∀ j, j < 17 → slc (off + j) = working sig (off + j)) :
    (hamming_window c slc off).1 = recoverable c sig off ∧
    ∀ k, (hamming_window c slc off).2 k =
      if off ≤ k ∧ k < off + 17 then (c.decode17123 (block sig off)).2.getD (k - off) (slc k)
      else slc k := by
  have hw : (List.range 17).map (fun j => slc (off + j)) = block sig off := by
    unfold block
    apply List.map_congr_left
    intro j hj
    exact h j (List.mem_range.1 hj)
  unfold hamming_window recoverable
  simp only [hw]
  exact ⟨trivial, fun _ => trivial⟩

theorem hamming_windows_eq {σ : Type} (c : Ext σ) (sig : List Bool) :
    (hamming_window c (working sig) 0).1 = recoverable c sig 0 ∧
    (hamming_window c (hamming_window c (working sig) 0).2 17).1 = recoverable c sig 17 ∧
    (hamming_window c (hamming_window c (hamming_window c (working sig) 0).2 17).2 34).1 =
      recoverable c sig 34 ∧
    (hamming_window c (hamming_window c (hamming_window c (working sig) 0).2 17).2 34).2 =
      corrected c sig := by
  obtain ⟨f0, g0⟩ := hamming_window_fst c (working sig) sig 0 (fun _ _ => rfl)
  have a1 : ∀ j, j < 17 → (hamming_window c (working sig) 0).2 (17 + j) =
      working sig (17 + j) := by
    intro j _
    rw [g0, if_neg (by omega)]
  obtain ⟨f1, g1⟩ := hamming_window_fst c (hamming_window c (working sig) 0).2 sig 17 a1
  have a2 : ∀ j, j < 17 →
      (hamming_window c (hamming_window c (working sig) 0).2 17).2 (34 + j) =
      working sig (34 + j) := by
    intro j _
    rw [g1, if_neg (by omega), g0, if_neg (by omega)]
  obtain ⟨f2, g2⟩ := hamming_window_fst c
    (hamming_window c (hamming_window c (working sig) 0).2 17).2 sig 34 a2
  refine ⟨f0, f1, f2, ?_⟩
  funext k
  rw [g2]
  unfold corrected
  by_cases h17 : k < 17
  · rw [if_neg (by omega), g1, if_neg (by omega), g0, if_pos (by omega), if_pos h17]
    rfl
  · by_cases h34 : k < 34
    · rw [if_neg (by omega), g1, if_pos (by omega), g0, if_neg (by omega), if_neg h17,
        if_pos h34]
    · by_cases h51 : k < 51
      · rw [if_pos (by omega), g1, if_neg (by omega), g0, if_neg (by omega), if_neg h17,
          if_neg h34, if_pos h51]
      · rw [if_neg (by omega), g1, if_neg (by omega), g0, if_neg (by omega), if_neg h17,
          if_neg h34, if_neg h51]

theorem parity_ok_iff (slc : Nat → Bool) :
    parity_ok slc = true ↔
      ∀ i, i < 17 → slc (i + 51) = xor (xor (slc i) (slc (i + 17))) (slc (i + 34)) := by
  simp [parity_ok, List.all_eq_true, List.mem_range]

theorem decode_shortLC_eq {σ : Type} (c : Ext σ) (sig : List Bool) (h : 68 ≤ sig.length) :
    decode_shortLC c sig =
      if !(recoverable c sig 0 && recoverable c sig 17 && recoverable c sig 34) then some false
      else if !parity_ok (corrected c sig) then some false
      else if c.crc8 (slc_array (strip_hamming (corrected c sig))) 36 != 0 then some false
      else some true := by
  obtain ⟨f0, f1, f2, g⟩ := hamming_windows_eq c sig
  unfold decode_shortLC
  rw [deinterleave_eq sig h]
  simp only [f0, f1, f2, g, Bool.true_and]

/-- C7 (fails on the code): on a decoder whose CACH buffer is empty, as after construction,
a frame carrying a CACH with start/stop code End (2) leaves a buffer of as many bits as the
payload table has entries; when these are fewer than 68, `decode_shortLC` is called and
reads an index at or beyond the length of the buffer. -/
theorem end_without_begin_out_of_range {σ : Type} (c : Ext σ) (st : dmr_cai σ)
    (hfresh : st.d_cach_sig = []) (he : tact_lcss c st.d_frame = 2)
    (hlen : c.cach_payload_bits.length < 68) :
    (extract_cach_fragment c st).st.d_cach_sig.length = c.cach_payload_bits.length ∧
    (∃ i ∈ decode_shortLC_reads, (extract_cach_fragment c st).st.d_cach_sig.length ≤ i) ∧
    (extract_cach_fragment c st).slc = some none := by
  have hsig : (extract_cach_fragment c st).st.d_cach_sig = payload_bits c st.d_frame := by
    rw [extract_cach_fragment_eq]
    simp [he, hfresh]
  have hslc : (extract_cach_fragment c st).slc =
      some (decode_shortLC c (payload_bits c st.d_frame)) := by
    rw [extract_cach_fragment_eq]
    simp [he, hfresh]
  have hl : (payload_bits c st.d_frame).length = c.cach_payload_bits.length := by
    simp [payload_bits, gather]
  refine ⟨by rw [hsig, hl], ⟨67, by simp [decode_shortLC_reads], by rw [hsig, hl]; omega⟩, ?_⟩
  rw [hslc]
  unfold decode_shortLC
  rw [deinterleave_short _ (by rw [hl]; exact hlen)]

/-- The first burst given to the fresh sample decoder has the base-station voice sync and
start/stop code End: `load_frame` calls `decode_shortLC` on a buffer of 17 bits, and the
read of index 20 (for `i = 5`) is already out of range. -/
theorem end_without_begin_out_of_range_witness :
    (load_frame sample sample_fresh (sample_burst [0, 0, 0, 0, 2] sample_bs_symbols)).slc =
      some none ∧
    (load_frame sample sample_fresh
      (sample_burst [0, 0, 0, 0, 2] sample_bs_symbols)).st.d_cach_sig.length = 17 ∧
    decode_shortLC_reads.get? 5 = some 20 ∧
    (extract_cach_fragment sample
      { sample_fresh with
        d_frame := frame_of sample (sample_burst [0, 0, 0, 0, 2] sample_bs_symbols) }).slc =
      some none :=
  ⟨by decide, by decide, by decide,
    (end_without_begin_out_of_range sample
      { sample_fresh with
        d_frame := frame_of sample (sample_burst [0, 0, 0, 0, 2] sample_bs_symbols) }
      (by decide) (by decide) (by decide)).2.2⟩

/-- C8 as stated fails: on a buffer of exactly 67 bits the indices read by `decode_shortLC`
are not all valid (index 67 is read), and the deinterleave step has no defined result. -/
theorem decode_shortLC_reads_67_bits :
    (List.replicate 67 false).length = 67 ∧
    ¬ (∀ i ∈ decode_shortLC_reads, i < (List.replicate 67 false).length) ∧
    67 ∈ decode_shortLC_reads ∧
    deinterleave (List.replicate 67 false) = none ∧
    decode_shortLC sample (List.replicate 67 false) = none := by
  refine ⟨by decide, ?_, by decide, ?_, ?_⟩
  · rw [reads_in_range_iff]
    decide
  · exact deinterleave_short _ (by decide)
  · unfold decode_shortLC
    rw [deinterleave_short _ (by decide)]

/-- C8 (amended): when the CACH buffer holds at least 68 bits, every buffer index read by
`decode_shortLC` (the 67 deinterleave reads and the copy into working element 67) is a valid
index of the buffer, the working array is the one described, and the call returns. -/
theorem decode_shortLC_reads_in_range {σ : Type} (c : Ext σ) (sig : List Bool)
    (h : 68 ≤ sig.length) :
    (∀ i ∈ decode_shortLC_reads, i < sig.length) ∧
    deinterleave sig = some (working sig) ∧
    (decode_shortLC c sig = some true ∨ decode_shortLC c sig = some false) := by
  refine ⟨(reads_in_range_iff sig).2 h, deinterleave_eq sig h, ?_⟩
  rw [decode_shortLC_eq c sig h]
  split_ifs <;> simp

/-- On a buffer of 68 zero bits all reads of the sample decoder are in range. -/
theorem decode_shortLC_reads_in_range_witness :
    68 ≤ (List.replicate 68 false).length ∧
    (∀ i ∈ decode_shortLC_reads, i < (List.replicate 68 false).length) :=
  ⟨by decide, (decode_shortLC_reads_in_range sample (List.replicate 68 false) (by decide)).1⟩

/-- C9: on a buffer long enough to be read, `decode_shortLC` returns true exactly when the
three Hamming(17,12,3) decodes at offsets 0, 17 and 34 of the working array all report
recoverable, working element `i + 51` equals the XOR of the corrected elements `i`, `i + 17`
and `i + 34` for every `i` in 0..16, and `crc8` over the 36 stripped bits is 0; otherwise it
returns false. -/
theorem decode_shortLC_true_iff {σ : Type} (c : Ext σ) (sig : List Bool)
    (h : 68 ≤ sig.length) :
    (decode_shortLC c sig = some true ↔
      (recoverable c sig 0 = true ∧ recoverable c sig 17 = true ∧
        recoverable c sig 34 = true) ∧
      (∀ i, i < 17 → working sig (i + 51) =
        xor (xor (corrected c sig i) (corrected c sig (i + 17))) (corrected c sig (i + 34))) ∧
      c.crc8 (slc_array (strip_hamming (corrected c sig))) 36 = 0) ∧
    (decode_shortLC c sig ≠ some true → decode_shortLC c sig = some false) := by
  have hp : parity_ok (corrected c sig) = true ↔
      ∀ i, i < 17 → working sig (i + 51) =
        xor (xor (corrected c sig i) (corrected c sig (i + 17))) (corrected c sig (i + 34)) := by
    rw [parity_ok_iff]
    have e : ∀ i, corrected c sig (i + 51) = working sig (i + 51) := by
      intro i
      unfold corrected
      rw [if_neg (by omega), if_neg (by omega), if_neg (by omega)]
    simp only [e]
  rw [decode_shortLC_eq c sig h, ← hp]
  cases recoverable c sig 0 <;> cases recoverable c sig 17 <;> cases recoverable c sig 34 <;>
    cases parity_ok (corrected c sig) <;>
    by_cases hc : c.crc8 (slc_array (strip_hamming (corrected c sig))) 36 = 0 <;>
    simp [hc]

/-- On 68 zero bits the three sample blocks are accepted, the parity row matches and the
sample checksum is 0: the decode returns true. -/
theorem decode_shortLC_true_iff_witness :
    68 ≤ (List.replicate 68 false).length ∧
    decode_shortLC sample (List.replicate 68 false) = some true :=
  ⟨by decide,
    (decode_shortLC_true_iff sample (List.replicate 68 false) (by decide)).1.2
      ⟨⟨by decide, by decide, by decide⟩, by decide, by decide⟩⟩

/-- C10: on a buffer long enough to be read, when the three Hamming(17,12,3) blocks all
decode as recoverable and for some `i` in 0..16 working element `i + 51` differs from the XOR
of the corrected elements `i`, `i + 17` and `i + 34`, `decode_shortLC` returns false,
whatever `crc8` gives. -/
theorem decode_shortLC_parity_failure {σ : Type} (c : Ext σ) (sig : List Bool)
    (h : 68 ≤ sig.length)
    (hr : recoverable c sig 0 = true ∧ recoverable c sig 17 = true ∧
      recoverable c sig 34 = true)
    (i : Nat) (hi : i < 17)
    (hp : working sig (i + 51) ≠
      xor (xor (corrected c sig i) (corrected c sig (i + 17))) (corrected c sig (i + 34))) :
    decode_shortLC c sig = some false := by
  have hpar : parity_ok (corrected c sig) = false := by
    cases hpo : parity_ok (corrected c sig) with
    | false => rfl
    | true =>
      exfalso
      apply hp
      have := (parity_ok_iff _).1 hpo i hi
      rw [← this]
      unfold corrected
      rw [if_neg (by omega), if_neg (by omega), if_neg (by omega)]
  rw [decode_shortLC_eq c sig h, hr.1, hr.2.1, hr.2.2, hpar]
  rfl

/-- A buffer of 67 zero bits followed by a one: the sample blocks are accepted, parity
element 67 differs from the XOR of elements 16, 33 and 50, and the decode returns false. -/
theorem decode_shortLC_parity_failure_witness :
    68 ≤ (List.replicate 67 false ++ [true]).length ∧
    decode_shortLC sample (List.replicate 67 false ++ [true]) = some false :=
  ⟨by decide,
    decode_shortLC_parity_failure sample (List.replicate 67 false ++ [true]) (by decide)
      ⟨by decide, by decide, by decide⟩ 16 (by decide) (by decide)⟩

/-! ## Stripping and deinterleaving -/

theorem copy_loop_apply (n : Nat) : ∀ (a d : Nat) (s : Nat → Bool), 1 ≤ d → d ≤ a →
    ∀ k, copy_loop a n d s k = if a - d ≤ k ∧ k < a - d + n then s (k + d) else s k := by
  induction n with
  | zero =>
    intro a d s _ _ k
    rw [if_neg (by omega)]
    rfl
  | succ n ih =>
    intro a d s hd hda k
    have hstep : copy_loop a (n + 1) d s =
        copy_loop (a + 1) n d (Function.update s (a - d) (s a)) := by
      simp [copy_loop, List.range'_succ]
    rw [hstep, ih (a + 1) d _ hd (by omega) k]
    by_cases h1 : a + 1 - d ≤ k ∧ k < a + 1 - d + n
    · rw [if_pos h1, if_pos (by omega), Function.update_noteq (by omega)]
    · rw [if_neg h1]
      by_cases h2 : k = a - d
      · subst h2
        rw [Function.update_same, if_pos (by omega)]
        congr 1
        omega
      · rw [Function.update_noteq h2, if_neg (by omega)]

theorem strip_hamming_eq (s : Nat → Bool) :
    strip_hamming s = copy_loop 34 12 10 (copy_loop 17 12 5 s) := rfl

theorem strip_hamming_apply (s : Nat → Bool) (k : Nat) :
    strip_hamming s k =
      if k < 12 then s k else if k < 24 then s (k + 5) else if k < 36 then s (k + 10)
      else s k := by
  rw [strip_hamming_eq, copy_loop_apply 12 34 10 _ (by omega) (by omega) k]
  by_cases h1 : k < 12
  · rw [if_neg (by omega), if_pos h1, copy_loop_apply 12 17 5 _ (by omega) (by omega) k,
      if_neg (by omega)]
  · by_cases h2 : k < 24
    · rw [if_neg (by omega), if_neg h1, if_pos h2,
        copy_loop_apply 12 17 5 _ (by omega) (by omega) k, if_pos (by omega)]
    · by_cases h3 : k < 36
      · rw [if_pos (by omega), if_neg h1, if_neg h2, if_pos h3,
          copy_loop_apply 12 17 5 _ (by omega) (by omega) (k + 10), if_neg (by omega)]
      · rw [if_neg (by omega), if_neg h1, if_neg h2, if_neg h3,
          copy_loop_apply 12 17 5 _ (by omega) (by omega) k, if_neg (by omega)]

/-- C17: the two copy loops of `decode_shortLC` leave elements 0..11 as they were (the
first 12 bits of block 1), elements 12..23 equal to the former elements 17..28 (the first
12 bits of block 2) and elements 24..35 equal to the former elements 34..45 (the first 12
bits of block 3), for every array they are run on, so also for the array the three Hamming
decodes leave; and at each iteration the element read, `slc[i]`, still has the value it had
before the loops: no earlier iteration has overwritten it. -/
theorem strip_hamming_blocks (s : Nat → Bool) :
    (∀ i, i < 12 → strip_hamming s i = s i) ∧
    (∀ i, i < 12 → strip_hamming s (12 + i) = s (17 + i)) ∧
    (∀ i, i < 12 → strip_hamming s (24 + i) = s (34 + i)) ∧
    (∀ n, n < 12 → copy_loop 17 n 5 s (17 + n) = s (17 + n)) ∧
    (∀ n, n < 12 → copy_loop 34 n 10 (copy_loop 17 12 5 s) (34 + n) = s (34 + n)) ∧
    strip_hamming s = copy_loop 34 12 10 (copy_loop 17 12 5 s) := by
  refine ⟨fun i hi => ?_, fun i hi => ?_, fun i hi => ?_, fun n hn => ?_, fun n hn => ?_, rfl⟩
  · rw [strip_hamming_apply, if_pos hi]
  · rw [strip_hamming_apply, if_neg (by omega), if_pos (by omega)]
    congr 1
    omega
  · rw [strip_hamming_apply, if_neg (by omega), if_neg (by omega), if_pos (by omega)]
    congr 1
    omega
  · rw [copy_loop_apply n 17 5 _ (by omega) (by omega), if_neg (by omega)]
  · rw [copy_loop_apply n 34 10 _ (by omega) (by omega), if_neg (by omega),
      copy_loop_apply 12 17 5 _ (by omega) (by omega), if_neg (by omega)]

/-- C18: on a buffer of at least 68 bits the deinterleave step gives working element `i`
the value of buffer element `(i * 4) mod 67` for `i` in 0..66 and working element 67 the
value of buffer element 67; `i ↦ (i * 4) mod 67` is injective and surjective on 0..66; the
list of the 68 indices read is a permutation of 0..67, so that each of these buffer bits
appears in exactly one working position. -/
theorem deinterleave_permutation (sig : List Bool) (h : 68 ≤ sig.length) :
    (∃ slc, deinterleave sig = some slc ∧
      (∀ i, i < 67 → slc i = sig.getD ((i * 4) % 67) false) ∧
      slc 67 = sig.getD 67 false) ∧
    (∀ i j, i < 67 → j < 67 → (i * 4) % 67 = (j * 4) % 67 → i = j) ∧
    (∀ j, j < 67 → ∃ i, i < 67 ∧ (i * 4) % 67 = j) ∧
    decode_shortLC_reads.Perm (List.range 68) ∧
    decode_shortLC_reads.Nodup := by
  refine ⟨⟨working sig, deinterleave_eq sig h, fun i hi => ?_, ?_⟩, fun i j hi hj he => ?_,
    fun j hj => ⟨(17 * j) % 67, Nat.mod_lt _ (by decide), by omega⟩, by decide, by decide⟩
  · unfold working
    rw [if_pos hi, Nat.mul_comm]
  · unfold working
    rw [if_neg (by omega), if_pos rfl]
  · omega

/-- On a buffer of 68 bits that holds a single one, at index 4, the working array holds it
at index 1. -/
theorem deinterleave_permutation_witness :
    68 ≤ ((List.replicate 68 false).set 4 true).length ∧
    ∃ slc, deinterleave ((List.replicate 68 false).set 4 true) = some slc ∧
      (∀ i, i < 67 → slc i = ((List.replicate 68 false).set 4 true).getD ((i * 4) % 67) false) ∧
      slc 67 = ((List.replicate 68 false).set 4 true).getD 67 false :=
  ⟨by decide, (deinterleave_permutation ((List.replicate 68 false).set 4 true) (by decide)).1⟩

/-! ## Round trip of the short link control decoder -/

theorem range_map_eq_take_drop (p : List Bool) (f : Nat → Bool) (off n : Nat)
    (hlen : off + n ≤ p.length) (hf : ∀ i, i < n → f (i + off) = p.getD (i + off) false) :
    (List.range n).map (fun i => f (i + off)) = (p.drop off).take n := by
  apply List.ext_getElem
  · simp; omega
  · intro i h1 h2
    simp only [List.length_map, List.length_range] at h1
    have h3 : i + off < p.length := by omega
    have h4 := hf i h1
    rw [List.getD_eq_getElem _ _ h3] at h4
    simp [h4, Nat.add_comm off i]

theorem range_map_getD (l : List Bool) (n : Nat) (h : l.length = n) :
    (List.range n).map (fun j => l.getD j false) = l := by
  apply List.ext_getElem
  · simp [h]
  · intro i h1 h2
    simp [List.getD_eq_getElem?_getD, List.getElem?_eq_getElem h2]

theorem getD_set_ne (l : List Bool) (j k : Nat) (b : Bool) (h : j ≠ k) :
    (l.set j b).getD k false = l.getD k false := by
  simp [List.getD_eq_getElem?_getD, List.getElem?_set, h]

theorem getD_set_eq (l : List Bool) (j : Nat) (b : Bool) (h : j < l.length) :
    (l.set j b).getD j false = b := by
  simp [List.getD_eq_getElem?_getD, List.getElem?_set, h]

theorem load_u8_aux (slc : Nat → Bool) (off : Nat) (n : Nat) (hn : n ≤ 8) :
    (List.range n).foldl (fun v i => ((v <<< 1) % 256) ||| (slc (i + off)).toNat) 0 =
      ((List.range n).map (fun i => slc (i + off))).foldl (fun v b => 2 * v + b.toNat) 0 ∧
    (List.range n).foldl (fun v i => ((v <<< 1) % 256) ||| (slc (i + off)).toNat) 0 < 2 ^ n := by
  induction n with
  | zero => simp
  | succ n ih =>
    obtain ⟨e, lt⟩ := ih (by omega)
    have hb : (slc (n + off)).toNat < 2 ^ 1 := by cases slc (n + off) <;> decide
    have h256 : 2 ^ n ≤ 128 := by
      calc 2 ^ n ≤ 2 ^ 7 := Nat.pow_le_pow_right (by decide) (by omega)
        _ = 128 := rfl
    rw [List.range_succ, List.foldl_append, List.map_append, List.foldl_append]
    simp only [List.foldl_cons, List.foldl_nil, List.map_cons, List.map_nil]
    rw [← e]
    generalize (List.range n).foldl
      (fun v i => ((v <<< 1) % 256) ||| (slc (i + off)).toNat) 0 = v at lt
    have hv : (v <<< 1) % 256 = 2 ^ 1 * v := by
      rw [Nat.shiftLeft_eq]; omega
    rw [hv, ← Nat.mul_add_lt_is_or hb]
    constructor
    · omega
    · rw [Nat.pow_succ]; omega

theorem load_u8_eq (slc : Nat → Bool) (p : List Bool) (off n : Nat) (hn : n ≤ 8)
    (hlen : off + n ≤ p.length) (hf : ∀ i, i < n → slc (i + off) = p.getD (i + off) false) :
    load_u8 slc off n = bits_value ((p.drop off).take n) := by
  unfold load_u8 bits_value
  rw [(load_u8_aux slc off n hn).1, range_map_eq_take_drop p slc off n hlen hf]

theorem block_eq (sig : List Bool) (off : Nat) (l : List Bool) (hl : l.length = 17)
    (h : ∀ j, j < 17 → working sig (off + j) = l.getD j false) : block sig off = l := by
  unfold block
  rw [← range_map_getD l 17 hl]
  apply List.map_congr_left
  intro j hj
  exact h j (List.mem_range.1 hj)

theorem corrected_of_blocks {σ : Type} (c : Ext σ) (sig cw0 cw1 cw2 : List Bool)
    (l0 : cw0.length = 17) (l1 : cw1.length = 17) (l2 : cw2.length = 17)
    (d0 : (c.decode17123 (block sig 0)).2 = cw0)
    (d1 : (c.decode17123 (block sig 17)).2 = cw1)
    (d2 : (c.decode17123 (block sig 34)).2 = cw2) (k : Nat) :
    corrected c sig k =
      if k < 17 then cw0.getD k false
      else if k < 34 then cw1.getD (k - 17) false
      else if k < 51 then cw2.getD (k - 34) false
      else working sig k := by
  unfold corrected
  rw [d0, d1, d2]
  by_cases h1 : k < 17
  · rw [if_pos h1, if_pos h1, List.getD_eq_getElem _ _ (by omega),
      List.getD_eq_getElem _ _ (by omega)]
  · by_cases h2 : k < 34
    · rw [if_neg h1, if_neg h1, if_pos h2, if_pos h2, List.getD_eq_getElem _ _ (by omega),
        List.getD_eq_getElem _ _ (by omega)]
    · by_cases h3 : k < 51
      · rw [if_neg h1, if_neg h1, if_neg h2, if_neg h2, if_pos h3, if_pos h3,
          List.getD_eq_getElem _ _ (by omega), List.getD_eq_getElem _ _ (by omega)]
      · rw [if_neg h1, if_neg h1, if_neg h2, if_neg h2, if_neg h3, if_neg h3]

theorem decode_shortLC_of_blocks {σ : Type} (c : Ext σ) (sig p cw0 cw1 cw2 : List Bool)
    (hlen : 68 ≤ sig.length) (hp : p.length = 36)
    (l0 : cw0.length = 17) (l1 : cw1.length = 17) (l2 : cw2.length = 17)
    (d0 : c.decode17123 (block sig 0) = (true, cw0))
    (d1 : c.decode17123 (block sig 17) = (true, cw1))
    (d2 : c.decode17123 (block sig 34) = (true, cw2))
    (hpar : ∀ i, i < 17 → working sig (i + 51) =
      xor (xor (cw0.getD i false) (cw1.getD i false)) (cw2.getD i false))
    (g0 : ∀ j, j < 12 → cw0.getD j false = p.getD j false)
    (g1 : ∀ j, j < 12 → cw1.getD j false = p.getD (12 + j) false)
    (g2 : ∀ j, j < 12 → cw2.getD j false = p.getD (24 + j) false)
    (hcrc : ∀ arr : List Bool, arr.take 36 = p → c.crc8 arr 36 = 0) :
    decode_shortLC c sig = some true ∧
    decode_shortLC_fields c sig =
      some (bits_value (p.take 4), bits_value ((p.drop 4).take 8),
        bits_value ((p.drop 12).take 8), bits_value ((p.drop 20).take 8)) := by
  have hcor := corrected_of_blocks c sig cw0 cw1 cw2 l0 l1 l2
    (by rw [d0]) (by rw [d1]) (by rw [d2])
  have hstrip : ∀ k, k < 36 → strip_hamming (corrected c sig) k = p.getD k false := by
    intro k hk
    rw [strip_hamming_apply]
    by_cases h1 : k < 12
    · rw [if_pos h1, hcor, if_pos (by omega), g0 k h1]
    · by_cases h2 : k < 24
      · rw [if_neg h1, if_pos h2, hcor, if_neg (by omega), if_pos (by omega)]
        have e : k + 5 - 17 = k - 12 := by omega
        have e2 : 12 + (k - 12) = k := by omega
        rw [e, g1 (k - 12) (by omega), e2]
      · rw [if_neg h1, if_neg h2, if_pos hk, hcor, if_neg (by omega), if_neg (by omega),
          if_pos (by omega)]
        have e : k + 10 - 34 = k - 24 := by omega
        have e2 : 24 + (k - 24) = k := by omega
        rw [e, g2 (k - 24) (by omega), e2]
  have hr0 : recoverable c sig 0 = true := by unfold recoverable; rw [d0]
  have hr1 : recoverable c sig 17 = true := by unfold recoverable; rw [d1]
  have hr2 : recoverable c sig 34 = true := by unfold recoverable; rw [d2]
  have hpo : parity_ok (corrected c sig) = true := by
    rw [parity_ok_iff]
    intro i hi
    rw [hcor (i + 51), hcor i, hcor (i + 17), hcor (i + 34), if_neg (by omega),
      if_neg (by omega), if_neg (by omega), if_pos hi, if_neg (by omega), if_pos (by omega),
      if_neg (by omega), if_neg (by omega), if_pos (by omega), hpar i hi]
    have e1 : i + 17 - 17 = i := by omega
    have e2 : i + 34 - 34 = i := by omega
    rw [e1, e2]
  have htake : (slc_array (strip_hamming (corrected c sig))).take 36 = p := by
    apply List.ext_getElem
    · simp [slc_array, hp]
    · intro i h1 h2
      have hi : i < 36 := by rw [hp] at h2; exact h2
      have := hstrip i hi
      rw [List.getD_eq_getElem _ _ h2] at this
      simp [slc_array, this]
  have hdec : decode_shortLC c sig = some true := by
    rw [decode_shortLC_eq c sig hlen, hr0, hr1, hr2, hpo, hcrc _ htake]
    rfl
  refine ⟨hdec, ?_⟩
  unfold decode_shortLC_fields
  rw [deinterleave_eq sig hlen]
  simp only [(hamming_windows_eq c sig).2.2.2, hdec, if_true]
  unfold shortLC_fields
  rw [load_u8_eq _ p 0 4 (by omega) (by omega) (fun i hi => hstrip _ (by omega)),
    load_u8_eq _ p 4 8 (by omega) (by omega) (fun i hi => hstrip _ (by omega)),
    load_u8_eq _ p 12 8 (by omega) (by omega) (fun i hi => hstrip _ (by omega)),
    load_u8_eq _ p 20 8 (by omega) (by omega) (fun i hi => hstrip _ (by omega)),
    List.drop_zero]

theorem working_eq_encoded (sig cw0 cw1 cw2 : List Bool)
    (hil : ∀ i, i < 67 → sig.getD ((4 * i) % 67) false = encoded_working cw0 cw1 cw2 i)
    (h67 : sig.getD 67 false = encoded_working cw0 cw1 cw2 67) (k : Nat) :
    working sig k = encoded_working cw0 cw1 cw2 k := by
  unfold working
  by_cases h1 : k < 67
  · rw [if_pos h1, hil k h1]
  · by_cases h2 : k = 67
    · rw [if_neg h1, if_pos h2, h67, h2]
    · rw [if_neg h1, if_neg h2]
      unfold encoded_working
      rw [if_neg (by omega), if_neg (by omega), if_neg (by omega), if_neg (by omega)]

theorem encoded_blocks (sig cw0 cw1 cw2 : List Bool)
    (l0 : cw0.length = 17) (l1 : cw1.length = 17) (l2 : cw2.length = 17)
    (hw : ∀ k, working sig k = encoded_working cw0 cw1 cw2 k) :
    block sig 0 = cw0 ∧ block sig 17 = cw1 ∧ block sig 34 = cw2 ∧
    ∀ i, i < 17 → working sig (i + 51) =
      xor (xor (cw0.getD i false) (cw1.getD i false)) (cw2.getD i false) := by
  refine ⟨block_eq sig 0 cw0 l0 fun j hj => ?_, block_eq sig 17 cw1 l1 fun j hj => ?_,
    block_eq sig 34 cw2 l2 fun j hj => ?_, fun i hi => ?_⟩
  · rw [hw]
    unfold encoded_working
    rw [if_pos (by omega), Nat.zero_add]
  · rw [hw]
    unfold encoded_working
    rw [if_neg (by omega), if_pos (by omega)]
    congr 1
    omega
  · rw [hw]
    unfold encoded_working
    rw [if_neg (by omega), if_neg (by omega), if_pos (by omega)]
    congr 1
    omega
  · rw [hw]
    unfold encoded_working
    rw [if_neg (by omega), if_neg (by omega), if_neg (by omega), if_pos (by omega)]
    have e : i + 51 - 51 = i := by omega
    rw [e]

/-- C11: round trip.  Let `p` be a 36-bit payload whose `crc8` over 36 bits is 0, let
`cw0`, `cw1`, `cw2` be 17-bit words whose first 12 bits are bits 0-11, 12-23 and 24-35 of
`p` and which the Hamming(17,12,3) decode accepts and leaves unchanged, and let the 68-bit
buffer hold at element `(4 * i) mod 67` element `i` of the working array made of the three
codewords and their 17 column parities (and element 67 at index 67).  Then `decode_shortLC`
returns true and the values it extracts are the opcode `p[0..3]` and the octets `p[4..11]`,
`p[12..19]`, `p[20..27]`, each read most significant bit first. -/
theorem decode_shortLC_round_trip {σ : Type} (c : Ext σ) (sig p cw0 cw1 cw2 : List Bool)
    (hlen : sig.length = 68) (hp : p.length = 36)
    (hcrc : ∀ arr : List Bool, arr.take 36 = p → c.crc8 arr 36 = 0)
    (h0 : cw0.length = 17 ∧ (∀ j, j < 12 → cw0.getD j false = p.getD j false) ∧
      c.decode17123 cw0 = (true, cw0))
    (h1 : cw1.length = 17 ∧ (∀ j, j < 12 → cw1.getD j false = p.getD (12 + j) false) ∧
      c.decode17123 cw1 = (true, cw1))
    (h2 : cw2.length = 17 ∧ (∀ j, j < 12 → cw2.getD j false = p.getD (24 + j) false) ∧
      c.decode17123 cw2 = (true, cw2))
    (hil : ∀ i, i < 67 → sig.getD ((4 * i) % 67) false = encoded_working cw0 cw1 cw2 i)
    (h67 : sig.getD 67 false = encoded_working cw0 cw1 cw2 67) :
    decode_shortLC c sig = some true ∧
    decode_shortLC_fields c sig =
      some (bits_value (p.take 4), bits_value ((p.drop 4).take 8),
        bits_value ((p.drop 12).take 8), bits_value ((p.drop 20).take 8)) := by
  obtain ⟨b0, b1, b2, hpar⟩ := encoded_blocks sig cw0 cw1 cw2 h0.1 h1.1 h2.1
    (working_eq_encoded sig cw0 cw1 cw2 hil h67)
  exact decode_shortLC_of_blocks c sig p cw0 cw1 cw2 (by omega) hp h0.1 h1.1 h2.1
    (by rw [b0]; exact h0.2.2) (by rw [b1]; exact h1.2.2) (by rw [b2]; exact h2.2.2)
    hpar h0.2.1 h1.2.1 h2.2.1 hcrc

/-- The sample buffer decodes, with the sample decode, to opcode 5 and octets 0x3c, 0x81,
0x00. -/
theorem decode_shortLC_round_trip_witness :
    decode_shortLC sample_fec sample_sig = some true ∧
    decode_shortLC_fields sample_fec sample_sig = some (5, 0x3c, 0x81, 0) :=
  decode_shortLC_round_trip sample_fec sample_sig sample_payload sample_cw0 sample_cw1
    sample_cw2 (by decide) (by decide)
    (fun arr h => by
      show (arr.take 36).count true % 2 = 0
      rw [h]
      decide)
    ⟨by decide, by decide, by decide⟩ ⟨by decide, by decide, by decide⟩
    ⟨by decide, by decide, by decide⟩ (by decide) (by decide)

theorem working_flip (sig : List Bool) (hlen : sig.length = 68) (i : Nat) (hi : i < 67)
    (k : Nat) :
    working (flip_bit sig ((4 * i) % 67)) k =
      if k = i then !working sig k else working sig k := by
  have hlt : (4 * i) % 67 < sig.length := by omega
  unfold working flip_bit
  by_cases h1 : k < 67
  · simp only [if_pos h1]
    by_cases h2 : k = i
    · subst h2
      simp only [if_true]
      exact getD_set_eq _ _ _ hlt
    · simp only [if_neg h2]
      exact getD_set_ne _ _ _ _ (by omega)
  · have hki : k ≠ i := by omega
    simp only [if_neg h1, if_neg hki]
    by_cases h2 : k = 67
    · simp only [if_pos h2]
      exact getD_set_ne _ _ _ _ (by omega)
    · simp only [if_neg h2]

theorem block_flip (sig sig2 cw : List Bool) (off i : Nat) (lcw : cw.length = 17)
    (hb : ∀ j, j < 17 → working sig (off + j) = cw.getD j false)
    (hw : ∀ k, working sig2 k = if k = i then !working sig k else working sig k) :
    block sig2 off = if off ≤ i ∧ i < off + 17 then flip_bit cw (i - off) else cw := by
  by_cases h : off ≤ i ∧ i < off + 17
  · rw [if_pos h]
    apply block_eq _ _ _ (by simp [flip_bit, lcw])
    intro j hj
    rw [hw, hb j hj]
    unfold flip_bit
    by_cases h2 : off + j = i
    · have e : i - off = j := by omega
      rw [if_pos h2, e]
      exact (getD_set_eq _ _ _ (by omega)).symm
    · rw [if_neg h2]
      exact (getD_set_ne _ _ _ _ (by omega)).symm
  · rw [if_neg h]
    apply block_eq _ _ _ lcw
    intro j hj
    rw [hw, if_neg (by omega), hb j hj]

/-- C12: for a buffer encoded as in the round trip, and a Hamming(17,12,3) decode that
returns each of the three codewords from every single-bit corruption of it, inverting the
buffer bit at `(4 * i) mod 67` for any working position `i` in 0..50 still gives a decode
that returns true and extracts the same values as for the uncorrupted buffer, those of the
payload. -/
theorem decode_shortLC_single_flip {σ : Type} (c : Ext σ) (sig p cw0 cw1 cw2 : List Bool)
    (hlen : sig.length = 68) (hp : p.length = 36)
    (hcrc : ∀ arr : List Bool, arr.take 36 = p → c.crc8 arr 36 = 0)
    (h0 : cw0.length = 17 ∧ (∀ j, j < 12 → cw0.getD j false = p.getD j false) ∧
      c.decode17123 cw0 = (true, cw0))
    (h1 : cw1.length = 17 ∧ (∀ j, j < 12 → cw1.getD j false = p.getD (12 + j) false) ∧
      c.decode17123 cw1 = (true, cw1))
    (h2 : cw2.length = 17 ∧ (∀ j, j < 12 → cw2.getD j false = p.getD (24 + j) false) ∧
      c.decode17123 cw2 = (true, cw2))
    (hil : ∀ i, i < 67 → sig.getD ((4 * i) % 67) false = encoded_working cw0 cw1 cw2 i)
    (h67 : sig.getD 67 false = encoded_working cw0 cw1 cw2 67)
    (hc0 : ∀ j, j < 17 → c.decode17123 (flip_bit cw0 j) = (true, cw0))
    (hc1 : ∀ j, j < 17 → c.decode17123 (flip_bit cw1 j) = (true, cw1))
    (hc2 : ∀ j, j < 17 → c.decode17123 (flip_bit cw2 j) = (true, cw2))
    (i : Nat) (hi : i < 51) :
    decode_shortLC c (flip_bit sig ((4 * i) % 67)) = some true ∧
    decode_shortLC_fields c (flip_bit sig ((4 * i) % 67)) = decode_shortLC_fields c sig ∧
    decode_shortLC_fields c sig =
      some (bits_value (p.take 4), bits_value ((p.drop 4).take 8),
        bits_value ((p.drop 12).take 8), bits_value ((p.drop 20).take 8)) := by
  have hw := working_eq_encoded sig cw0 cw1 cw2 hil h67
  obtain ⟨b0, b1, b2, hpar⟩ := encoded_blocks sig cw0 cw1 cw2 h0.1 h1.1 h2.1 hw
  have clean := decode_shortLC_of_blocks c sig p cw0 cw1 cw2 (by omega) hp h0.1 h1.1 h2.1
    (by rw [b0]; exact h0.2.2) (by rw [b1]; exact h1.2.2) (by rw [b2]; exact h2.2.2)
    hpar h0.2.1 h1.2.1 h2.2.1 hcrc
  have hwf := working_flip sig hlen i (by omega)
  have e0 : ∀ j, j < 17 → working sig (0 + j) = cw0.getD j false := by
    intro j hj
    rw [hw]; unfold encoded_working
    rw [if_pos (by omega), Nat.zero_add]
  have e1 : ∀ j, j < 17 → working sig (17 + j) = cw1.getD j false := by
    intro j hj
    rw [hw]; unfold encoded_working
    rw [if_neg (by omega), if_pos (by omega)]
    congr 1; omega
  have e2 : ∀ j, j < 17 → working sig (34 + j) = cw2.getD j false := by
    intro j hj
    rw [hw]; unfold encoded_working
    rw [if_neg (by omega), if_neg (by omega), if_pos (by omega)]
    congr 1; omega
  have d0 : c.decode17123 (block (flip_bit sig ((4 * i) % 67)) 0) = (true, cw0) := by
    rw [block_flip sig _ cw0 0 i h0.1 e0 hwf]
    split_ifs
    · exact hc0 _ (by omega)
    · exact h0.2.2
  have d1 : c.decode17123 (block (flip_bit sig ((4 * i) % 67)) 17) = (true, cw1) := by
    rw [block_flip sig _ cw1 17 i h1.1 e1 hwf]
    split_ifs
    · exact hc1 _ (by omega)
    · exact h1.2.2
  have d2 : c.decode17123 (block (flip_bit sig ((4 * i) % 67)) 34) = (true, cw2) := by
    rw [block_flip sig _ cw2 34 i h2.1 e2 hwf]
    split_ifs
    · exact hc2 _ (by omega)
    · exact h2.2.2
  have hpar2 : ∀ k, k < 17 → working (flip_bit sig ((4 * i) % 67)) (k + 51) =
      xor (xor (cw0.getD k false) (cw1.getD k false)) (cw2.getD k false) := by
    intro k hk
    rw [hwf, if_neg (by omega), hpar k hk]
  have flipped := decode_shortLC_of_blocks c (flip_bit sig ((4 * i) % 67)) p cw0 cw1 cw2
    (by simp [flip_bit, hlen]) hp h0.1 h1.1 h2.1 d0 d1 d2 hpar2 h0.2.1 h1.2.1 h2.2.1 hcrc
  exact ⟨flipped.1, by rw [flipped.2, clean.2], clean.2⟩

/-- With the sample single-error-correcting decode, the sample buffer with the bit of
working position 20 (buffer index 13) inverted still decodes to opcode 5 and octets 0x3c,
0x81, 0x00. -/
theorem decode_shortLC_single_flip_witness :
    (4 * 20) % 67 = 13 ∧
    flip_bit sample_sig 13 ≠ sample_sig ∧
    decode_shortLC sample_fec (flip_bit sample_sig 13) = some true ∧
    decode_shortLC_fields sample_fec (flip_bit sample_sig 13) = some (5, 0x3c, 0x81, 0) :=
  have h := decode_shortLC_single_flip sample_fec sample_sig sample_payload sample_cw0
    sample_cw1 sample_cw2 (by decide) (by decide)
    (fun arr h => by
      show (arr.take 36).count true % 2 = 0
      rw [h]
      decide)
    ⟨by decide, by decide, by decide⟩ ⟨by decide, by decide, by decide⟩
    ⟨by decide, by decide, by decide⟩ (by decide) (by decide)
    (by decide) (by decide) (by decide) 20 (by decide)
  ⟨by decide, by decide, h.1, h.2.1.trans h.2.2⟩

theorem xor3_cancel (a b d a2 b2 d2 : Bool)
    (h : xor (xor a b) d = xor (xor a2 b2) d2) :
    (b = b2 → d = d2 → a = a2) ∧ (a = a2 → d = d2 → b = b2) ∧ (a = a2 → b = b2 → d = d2) := by
  revert h
  cases a <;> cases b <;> cases d <;> cases a2 <;> cases b2 <;> cases d2 <;> decide

theorem corrected_block_apply {σ : Type} (c : Ext σ) (sig : List Bool) (j : Nat)
    (hj : j < 17) :
    corrected c sig (0 + j) = (c.decode17123 (block sig 0)).2.getD j (working sig (0 + j)) ∧
    corrected c sig (17 + j) =
      (c.decode17123 (block sig 17)).2.getD j (working sig (17 + j)) ∧
    corrected c sig (34 + j) =
      (c.decode17123 (block sig 34)).2.getD j (working sig (34 + j)) := by
  unfold corrected
  refine ⟨?_, ?_, ?_⟩
  · rw [if_pos (by omega), Nat.zero_add]
  · rw [if_neg (by omega), if_pos (by omega)]
    congr 1
    omega
  · rw [if_neg (by omega), if_neg (by omega), if_pos (by omega)]
    congr 1
    omega

/-- C13: for a buffer encoded as in the round trip and a 68-bit buffer that differs from it
only in bits of one of the three 17-bit blocks (offset 0, 17 or 34 of the working array),
when the Hamming(17,12,3) decode of that block does not give back the original codeword
(it reports unrecoverable, or leaves another word), `decode_shortLC` returns false and
extracts no values. -/
theorem decode_shortLC_uncorrectable {σ : Type} (c : Ext σ) (sig cw0 cw1 cw2 : List Bool)
    (h0 : cw0.length = 17 ∧ c.decode17123 cw0 = (true, cw0))
    (h1 : cw1.length = 17 ∧ c.decode17123 cw1 = (true, cw1))
    (h2 : cw2.length = 17 ∧ c.decode17123 cw2 = (true, cw2))
    (hil : ∀ i, i < 67 → sig.getD ((4 * i) % 67) false = encoded_working cw0 cw1 cw2 i)
    (h67 : sig.getD 67 false = encoded_working cw0 cw1 cw2 67)
    (sig2 : List Bool) (hlen2 : sig2.length = 68)
    (off : Nat) (cw : List Bool)
    (hoff : (off = 0 ∧ cw = cw0) ∨ (off = 17 ∧ cw = cw1) ∨ (off = 34 ∧ cw = cw2))
    (hconf : ∀ k, k < 67 → (k < off ∨ off + 17 ≤ k) →
      sig2.getD ((4 * k) % 67) false = sig.getD ((4 * k) % 67) false)
    (hconf67 : sig2.getD 67 false = sig.getD 67 false)
    (hbad : ¬ (recoverable c sig2 off = true ∧
      ∀ j, j < 17 → corrected c sig2 (off + j) = cw.getD j false)) :
    decode_shortLC c sig2 = some false ∧ decode_shortLC_fields c sig2 = none := by
  have hw := working_eq_encoded sig cw0 cw1 cw2 hil h67
  obtain ⟨b0, b1, b2, hpar⟩ := encoded_blocks sig cw0 cw1 cw2 h0.1 h1.1 h2.1 hw
  have hoff3 : off = 0 ∨ off = 17 ∨ off = 34 := by
    rcases hoff with h | h | h
    · exact Or.inl h.1
    · exact Or.inr (Or.inl h.1)
    · exact Or.inr (Or.inr h.1)
  have hw2 : ∀ k, (k < off ∨ off + 17 ≤ k) → working sig2 k = working sig k := by
    intro k hk
    unfold working
    by_cases k1 : k < 67
    · rw [if_pos k1, if_pos k1, hconf k k1 hk]
    · by_cases k2 : k = 67
      · rw [if_neg k1, if_neg k1, if_pos k2, if_pos k2, hconf67]
      · rw [if_neg k1, if_neg k1, if_neg k2, if_neg k2]
  have e0 : ∀ j, j < 17 → working sig (0 + j) = cw0.getD j false := by
    intro j hj
    rw [hw]; unfold encoded_working
    rw [if_pos (by omega), Nat.zero_add]
  have e1 : ∀ j, j < 17 → working sig (17 + j) = cw1.getD j false := by
    intro j hj
    rw [hw]; unfold encoded_working
    rw [if_neg (by omega), if_pos (by omega)]
    congr 1; omega
  have e2 : ∀ j, j < 17 → working sig (34 + j) = cw2.getD j false := by
    intro j hj
    rw [hw]; unfold encoded_working
    rw [if_neg (by omega), if_neg (by omega), if_pos (by omega)]
    congr 1; omega
  have a0 : off ≠ 0 → ∀ j, j < 17 → corrected c sig2 (0 + j) = cw0.getD j false := by
    intro hne j hj
    have hb : block sig2 0 = cw0 :=
      block_eq sig2 0 cw0 h0.1 fun i hi => by rw [hw2 _ (by omega), e0 i hi]
    have l := h0.1
    rw [(corrected_block_apply c sig2 j hj).1, hb, h0.2]
    show cw0.getD j _ = cw0.getD j false
    rw [List.getD_eq_getElem _ _ (by omega), List.getD_eq_getElem _ _ (by omega)]
  have a1 : off ≠ 17 → ∀ j, j < 17 → corrected c sig2 (17 + j) = cw1.getD j false := by
    intro hne j hj
    have hb : block sig2 17 = cw1 :=
      block_eq sig2 17 cw1 h1.1 fun i hi => by rw [hw2 _ (by omega), e1 i hi]
    have l := h1.1
    rw [(corrected_block_apply c sig2 j hj).2.1, hb, h1.2]
    show cw1.getD j _ = cw1.getD j false
    rw [List.getD_eq_getElem _ _ (by omega), List.getD_eq_getElem _ _ (by omega)]
  have a2 : off ≠ 34 → ∀ j, j < 17 → corrected c sig2 (34 + j) = cw2.getD j false := by
    intro hne j hj
    have hb : block sig2 34 = cw2 :=
      block_eq sig2 34 cw2 h2.1 fun i hi => by rw [hw2 _ (by omega), e2 i hi]
    have l := h2.1
    rw [(corrected_block_apply c sig2 j hj).2.2, hb, h2.2]
    show cw2.getD j _ = cw2.getD j false
    rw [List.getD_eq_getElem _ _ (by omega), List.getD_eq_getElem _ _ (by omega)]
  have hfail : (recoverable c sig2 0 && recoverable c sig2 17 && recoverable c sig2 34) = false ∨
      parity_ok (corrected c sig2) = false := by
    by_contra hcon
    have hall : (recoverable c sig2 0 && recoverable c sig2 17 && recoverable c sig2 34) = true ∧
        parity_ok (corrected c sig2) = true := by
      cases hA : (recoverable c sig2 0 && recoverable c sig2 17 && recoverable c sig2 34) <;>
        cases hB : parity_ok (corrected c sig2) <;> simp [hA, hB] at hcon ⊢
    obtain ⟨hflags, hpo⟩ := hall
    simp only [Bool.and_eq_true] at hflags
    have hx : ∀ j, j < 17 →
        xor (xor (corrected c sig2 (0 + j)) (corrected c sig2 (17 + j)))
          (corrected c sig2 (34 + j)) =
        xor (xor (cw0.getD j false) (cw1.getD j false)) (cw2.getD j false) := by
      intro j hj
      have := (parity_ok_iff _).1 hpo j hj
      rw [Nat.zero_add, Nat.add_comm 17 j, Nat.add_comm 34 j, ← this, ← hpar j hj]
      unfold corrected
      rw [if_neg (by omega), if_neg (by omega), if_neg (by omega)]
      exact hw2 _ (by omega)
    apply hbad
    rcases hoff with ⟨ho, hc⟩ | ⟨ho, hc⟩ | ⟨ho, hc⟩
    · subst ho; subst hc
      exact ⟨hflags.1.1, fun j hj =>
        (xor3_cancel _ _ _ _ _ _ (hx j hj)).1 (a1 (by decide) j hj) (a2 (by decide) j hj)⟩
    · subst ho; subst hc
      exact ⟨hflags.1.2, fun j hj =>
        (xor3_cancel _ _ _ _ _ _ (hx j hj)).2.1 (a0 (by decide) j hj) (a2 (by decide) j hj)⟩
    · subst ho; subst hc
      exact ⟨hflags.2, fun j hj =>
        (xor3_cancel _ _ _ _ _ _ (hx j hj)).2.2 (a0 (by decide) j hj) (a1 (by decide) j hj)⟩
  have hdec : decode_shortLC c sig2 = some false := by
    rw [decode_shortLC_eq c sig2 (by omega)]
    rcases hfail with h | h
    · rw [h]; rfl
    · rw [h]
      cases (recoverable c sig2 0 && recoverable c sig2 17 && recoverable c sig2 34) <;> rfl
  refine ⟨hdec, ?_⟩
  unfold decode_shortLC_fields
  rw [deinterleave_eq sig2 (by omega)]
  simp [hdec]

/-- The sample buffer with the bits of working positions 0 and 1 (buffer indices 0 and 4)
inverted: the sample decode miscorrects block 0 to another word, and `decode_shortLC`
returns false. -/
theorem decode_shortLC_uncorrectable_witness :
    (sample_fec.decode17123 (block (flip_bit (flip_bit sample_sig 0) 4) 0)).1 = true ∧
    (sample_fec.decode17123 (block (flip_bit (flip_bit sample_sig 0) 4) 0)).2 ≠ sample_cw0 ∧
    decode_shortLC sample_fec (flip_bit (flip_bit sample_sig 0) 4) = some false ∧
    decode_shortLC_fields sample_fec (flip_bit (flip_bit sample_sig 0) 4) = none :=
  have h := decode_shortLC_uncorrectable sample_fec sample_sig sample_cw0 sample_cw1 sample_cw2
    ⟨by decide, by decide⟩ ⟨by decide, by decide⟩ ⟨by decide, by decide⟩
    (by decide) (by decide)
    (flip_bit (flip_bit sample_sig 0) 4) (by decide) 0 sample_cw0
    (Or.inl ⟨rfl, rfl⟩) (by decide) (by decide) (by decide)
  ⟨by decide, by decide, h.1, h.2⟩

/-! ## The slot call, the channel invariant and the frame of `load_frame` -/

theorem extract_cach_fragment_slot {σ : Type} (c : Ext σ) (st : dmr_cai σ) :
    (extract_cach_fragment c st).st.d_slot = st.d_slot ∧
    (extract_cach_fragment c st).st.d_chan =
      c.slot_ids ((extract_cach_fragment c st).st.d_shift_reg &&& 7) := by
  rw [extract_cach_fragment_eq]
  split_ifs <;> exact ⟨rfl, rfl⟩

theorem dispatch_sync_slot {σ : Type} (c : Ext σ) (st : dmr_cai σ) (m : Nat) :
    (dispatch_sync c st m).st.d_slot = st.d_slot := by
  unfold dispatch_sync
  split_ifs
  · exact (extract_cach_fragment_slot c st).1
  · exact (extract_cach_fragment_slot c st).1
  · rfl
  · rfl
  · rfl

theorem load_frame_slot_eq {σ : Type} (c : Ext σ) (st : dmr_cai σ) (fr_sym : List Nat) :
    (load_frame c st fr_sym).slot_index = (load_frame c st fr_sym).st.d_chan ∧
    (load_frame c st fr_sym).slot_bits = (frame_of c fr_sym).drop 24 ∧
    (load_frame c st fr_sym).unmute =
      (c.load_slot (st.d_slot (load_frame c st fr_sym).slot_index)
        (load_frame c st fr_sym).slot_bits (load_frame c st fr_sym).slot_sync).1 ∧
    (load_frame c st fr_sym).st.d_slot =
      Function.update st.d_slot (load_frame c st fr_sym).slot_index
        (c.load_slot (st.d_slot (load_frame c st fr_sym).slot_index)
          (load_frame c st fr_sym).slot_bits (load_frame c st fr_sym).slot_sync).2 := by
  cases h : sync_search c.DMR_SYNC_THRESHOLD (sync_field c (frame_of c fr_sym))
      c.DMR_SYNC_MAGICS with
  | none =>
    obtain ⟨_, hs, hb, hi, _, hst, hu⟩ := load_frame_none c st fr_sym h
    have hsl : (no_sync_update c { st with d_frame := frame_of c fr_sym }).d_slot =
        st.d_slot := rfl
    rw [hsl] at hst hu
    refine ⟨by rw [hi, hst], hb, by rw [hu, hi, hb, hs], ?_⟩
    rw [hst, hi, hb, hs]
  | some m =>
    obtain ⟨_, hs, hb, hi, _, hst, hu⟩ := load_frame_some c st fr_sym m h
    have hsl := dispatch_sync_slot c { st with d_frame := frame_of c fr_sym } m
    rw [hsl] at hst hu
    refine ⟨by rw [hi, hst], hb, by rw [hu, hi, hb, hs], ?_⟩
    rw [hst, hi, hb, hs]

/-- C14: for every frame `load_frame` makes its one `load_slot` call on the slot indexed by
the active channel as the tracker update of this frame leaves it, with the frame bits from
offset 24 on and with a sync value that is 0 when no sync was matched and a catalog entry
within the threshold when one was; `unmute` is the result of that call; the called slot
takes the state the call leaves, and every other slot keeps its state. -/
theorem load_frame_slot_call {σ : Type} (c : Ext σ) (st : dmr_cai σ) (fr_sym : List Nat) :
    (load_frame c st fr_sym).slot_index = (load_frame c st fr_sym).st.d_chan ∧
    (load_frame c st fr_sym).slot_bits = (frame_of c fr_sym).drop 24 ∧
    ((load_frame c st fr_sym).sync_rxd = false → (load_frame c st fr_sym).slot_sync = 0) ∧
    ((load_frame c st fr_sym).sync_rxd = true →
      (load_frame c st fr_sym).slot_sync ∈ c.DMR_SYNC_MAGICS ∧
      hamming_distance (sync_field c (frame_of c fr_sym)) (load_frame c st fr_sym).slot_sync ≤
        c.DMR_SYNC_THRESHOLD) ∧
    (load_frame c st fr_sym).unmute =
      (c.load_slot (st.d_slot (load_frame c st fr_sym).slot_index)
        (load_frame c st fr_sym).slot_bits (load_frame c st fr_sym).slot_sync).1 ∧
    (load_frame c st fr_sym).st.d_slot (load_frame c st fr_sym).slot_index =
      (c.load_slot (st.d_slot (load_frame c st fr_sym).slot_index)
        (load_frame c st fr_sym).slot_bits (load_frame c st fr_sym).slot_sync).2 ∧
    (∀ k, k ≠ (load_frame c st fr_sym).slot_index →
      (load_frame c st fr_sym).st.d_slot k = st.d_slot k) := by
  obtain ⟨hi, hb, hu, hsl⟩ := load_frame_slot_eq c st fr_sym
  refine ⟨hi, hb, ?_, ?_, hu, ?_, ?_⟩
  · intro hrx
    cases h : sync_search c.DMR_SYNC_THRESHOLD (sync_field c (frame_of c fr_sym))
        c.DMR_SYNC_MAGICS with
    | none => exact (load_frame_none c st fr_sym h).2.1
    | some m =>
      rw [(load_frame_some c st fr_sym m h).1] at hrx
      cases hrx
  · intro hrx
    cases h : sync_search c.DMR_SYNC_THRESHOLD (sync_field c (frame_of c fr_sym))
        c.DMR_SYNC_MAGICS with
    | none =>
      rw [(load_frame_none c st fr_sym h).1] at hrx
      cases hrx
    | some m =>
      obtain ⟨pre, post, hl, _, hm⟩ := (sync_search_some _ _ _ _).1 h
      rw [(load_frame_some c st fr_sym m h).2.1]
      exact ⟨by rw [hl]; simp, hm⟩
  · rw [hsl, Function.update_same]
  · intro k hk
    rw [hsl, Function.update_noteq hk]

theorem load_frame_chan_range {σ : Type} (c : Ext σ)
    (h : ∀ k, k < 8 → c.slot_ids k = 0 ∨ c.slot_ids k = 1) (st : dmr_cai σ)
    (hst : st.d_chan = 0 ∨ st.d_chan = 1) (fr_sym : List Nat) :
    (load_frame c st fr_sym).st.d_chan = 0 ∨ (load_frame c st fr_sym).st.d_chan = 1 := by
  have h7 : ∀ x : Nat, x &&& 7 < 8 := fun x =>
    Nat.lt_of_le_of_lt Nat.and_le_right (by decide)
  cases hs : sync_search c.DMR_SYNC_THRESHOLD (sync_field c (frame_of c fr_sym))
      c.DMR_SYNC_MAGICS with
  | none =>
    rw [(load_frame_none c st fr_sym hs).2.2.2.2.2.1]
    exact h _ (h7 _)
  | some m =>
    rw [(load_frame_some c st fr_sym m hs).2.2.2.2.2.1]
    show (dispatch_sync c { st with d_frame := frame_of c fr_sym } m).st.d_chan = 0 ∨
      (dispatch_sync c { st with d_frame := frame_of c fr_sym } m).st.d_chan = 1
    unfold dispatch_sync
    split_ifs
    · rw [(extract_cach_fragment_slot c _).2]
      exact h _ (h7 _)
    · rw [(extract_cach_fragment_slot c _).2]
      exact h _ (h7 _)
    · exact Or.inl rfl
    · exact Or.inr rfl
    · exact hst

theorem load_frames_chan_range {σ : Type} (c : Ext σ)
    (h : ∀ k, k < 8 → c.slot_ids k = 0 ∨ c.slot_ids k = 1) (frames : List (List Nat)) :
    ∀ st : dmr_cai σ, (st.d_chan = 0 ∨ st.d_chan = 1) →
      ((load_frames c st frames).d_chan = 0 ∨ (load_frames c st frames).d_chan = 1) := by
  induction frames with
  | nil => intro st hst; exact hst
  | cons f fs ih =>
    intro st hst
    exact ih (load_frame c st f).st (load_frame_chan_range c h st hst f)

/-- C15: provided each of the 8 entries of `slot_ids` is 0 or 1, the active channel is 0 or
1 after construction and after every sequence of `load_frame` calls, and the index with
which the next call selects the slot is below 2. -/
theorem d_chan_in_range {σ : Type} (c : Ext σ)
    (h : ∀ k, k < 8 → c.slot_ids k = 0 ∨ c.slot_ids k = 1) (s0 s1 : σ)
    (frames : List (List Nat)) :
    (dmr_cai_ctor c s0 s1).d_chan = 0 ∧
    ((load_frames c (dmr_cai_ctor c s0 s1) frames).d_chan = 0 ∨
      (load_frames c (dmr_cai_ctor c s0 s1) frames).d_chan = 1) ∧
    (∀ fr_sym,
      (load_frame c (load_frames c (dmr_cai_ctor c s0 s1) frames) fr_sym).slot_index < 2) := by
  have hr := load_frames_chan_range c h frames (dmr_cai_ctor c s0 s1) (Or.inl rfl)
  refine ⟨rfl, hr, fun fr_sym => ?_⟩
  rw [(load_frame_slot_eq c _ fr_sym).1]
  rcases load_frame_chan_range c h _ hr fr_sym with h0 | h1
  · rw [h0]; decide
  · rw [h1]; decide

/-- The sample table has entries 0 and 1; after a no-sync burst, a slot-1 voice burst and a
base-station burst the sample decoder is on channel 1. -/
theorem d_chan_in_range_witness :
    (∀ k, k < 8 → sample.slot_ids k = 0 ∨ sample.slot_ids k = 1) ∧
    (load_frames sample sample_fresh
      [List.replicate 144 0, sample_burst [] sample_t1_symbols,
        sample_burst [0, 0, 2] sample_bs_symbols]).d_chan = 1 ∧
    ((load_frames sample (dmr_cai_ctor sample 0 0)
      [List.replicate 144 0, sample_burst [] sample_t1_symbols,
        sample_burst [0, 0, 2] sample_bs_symbols]).d_chan = 0 ∨
     (load_frames sample (dmr_cai_ctor sample 0 0)
      [List.replicate 144 0, sample_burst [] sample_t1_symbols,
        sample_burst [0, 0, 2] sample_bs_symbols]).d_chan = 1) :=
  ⟨by decide, by decide,
    (d_chan_in_range sample (by decide) 0 0
      [List.replicate 144 0, sample_burst [] sample_t1_symbols,
        sample_burst [0, 0, 2] sample_bs_symbols]).2.1⟩

/-- C16: at an End frame, whatever `decode_shortLC` returns on the buffer `B ++ P` (true,
or false after the Hamming, parity or CRC stage), the CACH buffer, the shift register, the
active channel and the slots after the call are those at the call: the buffer is still
`B ++ P`, register and channel are those the tactical update set.  The buffer stays as it
is until a Begin frame: a following Continue frame appends to it, a following Begin frame
replaces it. -/
theorem decode_shortLC_keeps_state {σ : Type} (c : Ext σ) (st : dmr_cai σ)
    (he : tact_lcss c st.d_frame = 2) (b : Bool)
    (hb : decode_shortLC c (st.d_cach_sig ++ payload_bits c st.d_frame) = some b) :
    (extract_cach_fragment c st).slc = some (some b) ∧
    (extract_cach_fragment c st).st.d_cach_sig = st.d_cach_sig ++ payload_bits c st.d_frame ∧
    (extract_cach_fragment c st).st.d_shift_reg =
      (st.d_shift_reg <<< 1) % 2 ^ 32 + tact_tc c st.d_frame ∧
    (extract_cach_fragment c st).st.d_chan =
      c.slot_ids (((st.d_shift_reg <<< 1) % 2 ^ 32 + tact_tc c st.d_frame) &&& 7) ∧
    (extract_cach_fragment c st).st.d_slot = st.d_slot ∧
    (∀ f, tact_lcss c f = 3 →
      (cach_frame c (extract_cach_fragment c st).st f).st.d_cach_sig =
        st.d_cach_sig ++ payload_bits c st.d_frame ++ payload_bits c f) ∧
    (∀ f, tact_lcss c f = 1 →
      (cach_frame c (extract_cach_fragment c st).st f).st.d_cach_sig = payload_bits c f) := by
  have hst : (extract_cach_fragment c st).st =
      { st with
        d_shift_reg := (st.d_shift_reg <<< 1) % 2 ^ 32 + tact_tc c st.d_frame
        d_chan := c.slot_ids
          (((st.d_shift_reg <<< 1) % 2 ^ 32 + tact_tc c st.d_frame) &&& 7)
        d_cach_sig := st.d_cach_sig ++ payload_bits c st.d_frame } := by
    rw [extract_cach_fragment_eq]
    simp [he]
  have hslc : (extract_cach_fragment c st).slc = some (some b) := by
    rw [extract_cach_fragment_eq, ← hb]
    simp [he]
  refine ⟨hslc, by rw [hst], by rw [hst], by rw [hst], by rw [hst], fun f hf => ?_,
    fun f hf => ?_⟩
  · rw [(cach_frame_sig c _ f).2.1 hf, hst]
  · rw [(cach_frame_sig c _ f).1 hf]

/-- On the sample decoder with 51 buffered zero bits, an End frame whose payload has a one
makes `decode_shortLC` return false; the 68 bits stay in the buffer. -/
theorem decode_shortLC_keeps_state_witness :
    (extract_cach_fragment sample
      { sample_fresh with d_cach_sig := List.replicate 51 false, d_frame := sample_end }).slc =
      some (some false) ∧
    (extract_cach_fragment sample
      { sample_fresh with d_cach_sig := List.replicate 51 false,
                          d_frame := sample_end }).st.d_cach_sig =
      List.replicate 51 false ++ payload_bits sample sample_end :=
  have h := decode_shortLC_keeps_state sample
    { sample_fresh with d_cach_sig := List.replicate 51 false, d_frame := sample_end }
    (by decide) false (by decide)
  ⟨h.1, h.2.1⟩

/-! ## The shift register needs three bits -/

theorem tracker_step_mod8 {σ : Type} (c : Ext σ) (r ch : Nat) (u : TrackerUpdate) :
    (tracker_step c (r % 8, ch) u).2 = (tracker_step c (r, ch) u).2 ∧
    (tracker_step c (r % 8, ch) u).1 % 8 = (tracker_step c (r, ch) u).1 % 8 := by
  have h7 : ∀ x : Nat, x &&& 7 = x % 8 := fun x => Nat.and_pow_two_sub_one_eq_mod x 3
  have hk : ∀ b : Nat, (((r % 8) <<< 1) % 2 ^ 32 + b) % 8 = ((r <<< 1) % 2 ^ 32 + b) % 8 := by
    intro b
    rw [Nat.shiftLeft_eq, Nat.shiftLeft_eq]
    omega
  cases u with
  | t1_voice => exact ⟨rfl, rfl⟩
  | t2_voice => exact ⟨rfl, rfl⟩
  | tact tc =>
    simp only [tracker_step, h7]
    exact ⟨by rw [hk], hk _⟩
  | no_match =>
    simp only [tracker_step, h7]
    exact ⟨by rw [hk], hk _⟩

theorem tracker_trace_mod8 {σ : Type} (c : Ext σ) (us : List TrackerUpdate) :
    ∀ r ch : Nat,
      (tracker_trace (tracker_step3 c) (r % 8, ch) us).map Prod.snd =
        (tracker_trace (tracker_step c) (r, ch) us).map Prod.snd ∧
      (tracker_trace (tracker_step3 c) (r % 8, ch) us).map Prod.fst =
        (tracker_trace (tracker_step c) (r, ch) us).map (fun x => x.1 % 8) := by
  induction us with
  | nil => intro r ch; exact ⟨rfl, rfl⟩
  | cons u us ih =>
    intro r ch
    obtain ⟨e2, e1⟩ := tracker_step_mod8 c r ch u
    have hs : tracker_step3 c (r % 8, ch) u =
        ((tracker_step c (r, ch) u).1 % 8, (tracker_step c (r, ch) u).2) := by
      unfold tracker_step3
      rw [e1, e2]
    obtain ⟨i2, i1⟩ := ih (tracker_step c (r, ch) u).1 (tracker_step c (r, ch) u).2
    simp only [tracker_trace, List.map_cons, hs]
    exact ⟨by rw [i2], by rw [i1]⟩

/-- C19: for every starting register and channel and every sequence of tracker updates
(slot-1 sync, slot-2 sync, tactical bit, no match), the tracker whose register is cut to
its low 3 bits after each update has, after every step, the same active channel as the
tracker of the code, whose register is a 32-bit word that wraps, and its register is the
low 3 bits of that word; the updates are those `extract_cach_fragment` and the no-match
branch of `load_frame` perform. -/
theorem tracker_three_bits {σ : Type} (c : Ext σ) (r ch : Nat) (us : List TrackerUpdate) :
    (tracker_trace (tracker_step3 c) (r % 8, ch) us).map Prod.snd =
      (tracker_trace (tracker_step c) (r, ch) us).map Prod.snd ∧
    (tracker_trace (tracker_step3 c) (r % 8, ch) us).map Prod.fst =
      (tracker_trace (tracker_step c) (r, ch) us).map (fun x => x.1 % 8) ∧
    (∀ st : dmr_cai σ,
      ((extract_cach_fragment c st).st.d_shift_reg, (extract_cach_fragment c st).st.d_chan) =
        tracker_step c (st.d_shift_reg, st.d_chan)
          (TrackerUpdate.tact (decide (tact_tc c st.d_frame = 1)))) ∧
    (∀ st : dmr_cai σ,
      ((no_sync_update c st).d_shift_reg, (no_sync_update c st).d_chan) =
        tracker_step c (st.d_shift_reg, st.d_chan) TrackerUpdate.no_match) := by
  refine ⟨(tracker_trace_mod8 c us r ch).1, (tracker_trace_mod8 c us r ch).2, fun st => ?_,
    fun st => rfl⟩
  have hlt : tact_tc c st.d_frame < 2 := Nat.mod_lt _ (by decide)
  have htc : (decide (tact_tc c st.d_frame = 1)).toNat = tact_tc c st.d_frame := by
    by_cases h1 : tact_tc c st.d_frame = 1
    · simp [h1]
    · have h0 : tact_tc c st.d_frame = 0 := by omega
      simp [h0]
  have hreg : (extract_cach_fragment c st).st.d_shift_reg =
      (st.d_shift_reg <<< 1) % 2 ^ 32 + tact_tc c st.d_frame := by
    rw [extract_cach_fragment_eq]
    split_ifs <;> rfl
  have hch : (extract_cach_fragment c st).st.d_chan =
      c.slot_ids (((st.d_shift_reg <<< 1) % 2 ^ 32 + tact_tc c st.d_frame) &&& 7) := by
    rw [extract_cach_fragment_eq]
    split_ifs <;> rfl
  rw [hreg, hch]
  simp only [tracker_step, htc]

/-- C20: a frame whose matched sync is none of the four constants of the `switch` makes
`load_frame` return true and leave the shift register, the active channel and the CACH
buffer as they were; the matched constant goes to the slot of the unchanged channel and
`decode_shortLC` is not called.  For every frame, a CACH buffer that differs after the call
means the frame was matched as base-station voice or base-station data. -/
theorem load_frame_other_sync {σ : Type} (c : Ext σ) (st : dmr_cai σ) (fr_sym : List Nat) :
    ((load_frame c st fr_sym).sync_rxd = true →
      (load_frame c st fr_sym).slot_sync ≠ c.DMR_BS_VOICE_SYNC_MAGIC →
      (load_frame c st fr_sym).slot_sync ≠ c.DMR_BS_DATA_SYNC_MAGIC →
      (load_frame c st fr_sym).slot_sync ≠ c.DMR_T1_VOICE_SYNC_MAGIC →
      (load_frame c st fr_sym).slot_sync ≠ c.DMR_T2_VOICE_SYNC_MAGIC →
      (load_frame c st fr_sym).st.d_shift_reg = st.d_shift_reg ∧
      (load_frame c st fr_sym).st.d_chan = st.d_chan ∧
      (load_frame c st fr_sym).st.d_cach_sig = st.d_cach_sig ∧
      (load_frame c st fr_sym).slot_index = st.d_chan ∧
      (load_frame c st fr_sym).slot_sync ∈ c.DMR_SYNC_MAGICS ∧
      (load_frame c st fr_sym).unmute =
        (c.load_slot (st.d_slot st.d_chan) ((frame_of c fr_sym).drop 24)
          (load_frame c st fr_sym).slot_sync).1 ∧
      (load_frame c st fr_sym).slc = none) ∧
    ((load_frame c st fr_sym).st.d_cach_sig ≠ st.d_cach_sig →
      (load_frame c st fr_sym).sync_rxd = true ∧
      ((load_frame c st fr_sym).slot_sync = c.DMR_BS_VOICE_SYNC_MAGIC ∨
        (load_frame c st fr_sym).slot_sync = c.DMR_BS_DATA_SYNC_MAGIC)) := by
  cases h : sync_search c.DMR_SYNC_THRESHOLD (sync_field c (frame_of c fr_sym))
      c.DMR_SYNC_MAGICS with
  | none =>
    obtain ⟨hrx, _, _, _, _, hst, _⟩ := load_frame_none c st fr_sym h
    constructor
    · intro ht
      rw [hrx] at ht
      cases ht
    · intro hne
      exact absurd (by rw [hst]; rfl) hne
  | some m =>
    obtain ⟨hrx, hs, _, hi, hslc, hst, hu⟩ := load_frame_some c st fr_sym m h
    obtain ⟨pre, post, hl, _, _⟩ := (sync_search_some _ _ _ _).1 h
    constructor
    · intro _ n1 n2 n3 n4
      rw [hs] at n1 n2 n3 n4
      have hd : dispatch_sync c { st with d_frame := frame_of c fr_sym } m =
          { st := { st with d_frame := frame_of c fr_sym }, slc := none } := by
        simp [dispatch_sync, n1, n2, n3, n4]
      rw [hd] at hst hi hslc hu
      refine ⟨by rw [hst], by rw [hst], by rw [hst], hi, ?_, by rw [hu, hs], hslc⟩
      rw [hs, hl]
      simp
    · intro hne
      refine ⟨hrx, ?_⟩
      rw [hs]
      by_contra hcon
      have n1 : m ≠ c.DMR_BS_VOICE_SYNC_MAGIC := fun e => hcon (Or.inl e)
      have n2 : m ≠ c.DMR_BS_DATA_SYNC_MAGIC := fun e => hcon (Or.inr e)
      apply hne
      rw [hst]
      show (dispatch_sync c { st with d_frame := frame_of c fr_sym } m).st.d_cach_sig =
        st.d_cach_sig
      unfold dispatch_sync
      rw [if_neg n1, if_neg n2]
      split_ifs <;> rfl

/-- A mobile-station voice burst on a sample decoder holding register 5, channel 1 and one
buffered bit: the sync is recognised and register, channel and buffer are unchanged. -/
theorem load_frame_other_sync_witness :
    (load_frame sample { sample_fresh with d_shift_reg := 5, d_chan := 1, d_cach_sig := [true] }
      (sample_burst [] sample_ms_symbols)).sync_rxd = true ∧
    (load_frame sample { sample_fresh with d_shift_reg := 5, d_chan := 1, d_cach_sig := [true] }
      (sample_burst [] sample_ms_symbols)).st.d_shift_reg = 5 ∧
    (load_frame sample { sample_fresh with d_shift_reg := 5, d_chan := 1, d_cach_sig := [true] }
      (sample_burst [] sample_ms_symbols)).st.d_chan = 1 ∧
    (load_frame sample { sample_fresh with d_shift_reg := 5, d_chan := 1, d_cach_sig := [true] }
      (sample_burst [] sample_ms_symbols)).st.d_cach_sig = [true] :=
  have h := (load_frame_other_sync sample
    { sample_fresh with d_shift_reg := 5, d_chan := 1, d_cach_sig := [true] }
    (sample_burst [] sample_ms_symbols)).1 (by decide) (by decide) (by decide) (by decide)
    (by decide)
  ⟨by decide, h.1, h.2.1, h.2.2.1⟩

end Dmr
